import Mathlib

/-!
Verification of the curv-embedding chunking subsystem.

This file gives a shallow embedding, in Lean 4, of the chunking core of the
repository (src/chunking/offline.py, src/chunking/streaming.py,
src/chunking/cut_score.py, src/chunking/manifests.py, src/config.py and the
hybrid orchestrator in scripts/run_hybrid_experiment.py), and proves or
refutes the frozen claims about it.

Modelling conventions:
- Python byte strings are `List ℤ` (each element a byte value 0..255).
- Python floats are modelled as exact rationals `ℚ`.  All float expressions
  relevant to the claims (cut-score composition, byte variance, the
  stability-margin transform, comparisons in the boundary selectors) are
  transcribed literally over `ℚ`.
- The two genuinely irrational ingredients of the pipeline — Shannon entropy
  (`math.log2` in `_compute_byte_entropy`) and the z-score normalizer
  (`math.sqrt` in `RollingNormalizer.update`) — are abstracted as function
  parameters (`entropyOf`, and the `Scorer` state-threading function for the
  streaming chunker).  No claim below constrains the value of the entropy
  signal K or of a z-scored signal, and every theorem quantifies over all
  such functions, so the theorems hold in particular for the real ones.
- Python `while` loops are embedded with an explicit fuel argument; fuel
  exhaustion returns a `none` / `false` marker together with the trace of
  chunks appended so far, mirroring the fact that the Python loop appends to
  a list and only returns it on termination.
- Python `max(..., key=...)` keeps the first maximal element; `list.sort` is
  a stable sort; `deque(maxlen=256)` drops the oldest element when full.
  Each is transcribed accordingly.
-/

/-- Raw signals at a byte position (`CutScoreSignals` in cut_score.py).
`K` curvature proxy, `S` stability margin, `D` disharmony, `B` structural
boundary indicator, `L` chunk length in bytes. -/
structure CutScoreSignals where
  K : ℚ
  S : ℚ
  D : ℚ
  B : ℚ
  L : ℤ
deriving DecidableEq

/-- Z-score normalized signals (`NormalizedSignals` in cut_score.py).
`B` and `L` pass through unnormalized. -/
structure NormalizedSignals where
  K_norm : ℚ
  S_norm : ℚ
  D_norm : ℚ
  B : ℚ
  L : ℤ
deriving DecidableEq

/-- Chunking configuration (`ChunkingConfig` in src/config.py).  Field
defaults are the source's defaults.  The dataclass performs no validation of
any kind. -/
structure ChunkingConfig where
  min_bytes : ℤ := 256
  max_bytes : ℤ := 4096
  overlap_bytes : ℤ := 64
  commit_horizon_bytes : ℤ := 1024
  L_target_bytes : ℤ := 2048
  wK : ℚ := 1
  wD : ℚ := 4/5
  wS : ℚ := 3/5
  wB : ℚ := 2
  wL : ℚ := 1/2
  k0 : ℚ := 1/2
  d0 : ℚ := 1/2
  s0 : ℚ := 1/2
  use_lil_boundaries : Bool := true
  use_curvature : Bool := true
  use_disharmony : Bool := false
  use_stability_margin : Bool := true
  soft_trigger_threshold : ℚ := 3/2
  soft_trigger_sustain_steps : ℤ := 3
deriving DecidableEq

/-- The condition the spec calls `ConfigInvalid` (spec §7): `min_bytes ≤ 0`,
`max_bytes ≤ min_bytes`, `overlap_bytes ≥ max_bytes`, or any negative weight
or threshold.  This is a spec-side predicate: the source code contains no
corresponding check. -/
def config_invalid (c : ChunkingConfig) : Prop :=
  c.min_bytes ≤ 0 ∨ c.max_bytes ≤ c.min_bytes ∨ c.max_bytes ≤ c.overlap_bytes ∨
  c.wK < 0 ∨ c.wD < 0 ∨ c.wS < 0 ∨ c.wB < 0 ∨ c.wL < 0 ∨
  c.k0 < 0 ∨ c.d0 < 0 ∨ c.s0 < 0 ∨ c.soft_trigger_threshold < 0

instance (c : ChunkingConfig) : Decidable (config_invalid c) := by
  unfold config_invalid; infer_instance

/-- The rectified linear unit (`relu` in cut_score.py): `max(0, x)`. -/
def relu (x : ℚ) : ℚ := max 0 x

/-- Cut-score composition, the body of `compute_cut_score` in cut_score.py
(lines 233-258), taking the already-normalized signals.  In the source the
normalized signals come either from `SignalNormalizers.normalize` (which
passes `B` and `L` through unchanged) or, when no normalizers are given, by
copying the raw signals verbatim; both paths feed a `NormalizedSignals`
value into exactly this sum. -/
def compute_cut_score (norm : NormalizedSignals) (config : ChunkingConfig) : ℚ :=
  (if config.use_curvature then config.wK * relu (norm.K_norm - config.k0) else 0)
  + (if config.use_disharmony then config.wD * relu (norm.D_norm - config.d0) else 0)
  + (if config.use_stability_margin then config.wS * relu (config.s0 - norm.S_norm) else 0)
  + (if config.use_lil_boundaries then config.wB * norm.B else 0)
  + (if 0 < config.L_target_bytes then
       config.wL * relu (((norm.L : ℚ) - (config.L_target_bytes : ℚ)) /
         (config.L_target_bytes : ℚ))
     else 0)

/-- The `NormalizedSignals` built from raw signals when `compute_cut_score`
is called without normalizers (cut_score.py lines 224-231). -/
def raw_as_normalized (s : CutScoreSignals) : NormalizedSignals :=
  { K_norm := s.K, S_norm := s.S, D_norm := s.D, B := s.B, L := s.L }

/-- Python slicing `data[a:b]` for integer bounds: negative indices count
from the end, and both bounds are clamped to `[0, len]`. -/
def pySlice (data : List ℤ) (a b : ℤ) : List ℤ :=
  let n : ℤ := data.length
  let a' : ℤ := if a < 0 then max 0 (n + a) else min a n
  let b' : ℤ := if b < 0 then max 0 (n + b) else min b n
  (data.take b'.toNat).drop a'.toNat

/-- Python indexing `data[i]` (negative indices count from the end; an
out-of-range index would raise in Python, here it defaults to 0 — all call
sites below guard the range first). -/
def pyGet (data : List ℤ) (i : ℤ) : ℤ :=
  if i < 0 then data.getD ((data.length : ℤ) + i).toNat 0 else data.getD i.toNat 0

/-- Variance of byte values in a window, `_compute_byte_variance` in
offline.py lines 84-112 (the streaming copy `_compute_byte_variance_buffer`
in streaming.py lines 108-134 is textually identical).  Returns 0 for an
empty range and for windows of fewer than two bytes. -/
def compute_byte_variance (data : List ℤ) (start window : ℤ) : ℚ :=
  let endPos : ℤ := min (start + window) (data.length : ℤ)
  if endPos ≤ start then 0
  else
    let window_bytes := pySlice data start endPos
    if window_bytes.length < 2 then 0
    else
      let mean : ℚ := (window_bytes.sum : ℚ) / (window_bytes.length : ℚ)
      (window_bytes.map (fun b => ((b : ℤ) - mean) ^ 2)).sum / (window_bytes.length : ℚ)

/-- Structural boundary test, `_is_structural_boundary` in offline.py lines
115-130: true exactly when the byte at `pos` is the newline byte 0x0A. -/
def is_structural_boundary (data : List ℤ) (pos : ℤ) : Bool :=
  if (data.length : ℤ) ≤ pos then false else pyGet data pos == 10

/-- Mean byte value of a window, stated independently for the spec-side
variance formula. -/
def list_mean (l : List ℤ) : ℚ := (l.sum : ℚ) / (l.length : ℚ)

/-- Population variance of a list of byte values — the spec's "byte-value
variance `v` over the window". -/
def list_variance (l : List ℤ) : ℚ :=
  (l.map (fun b => ((b : ℤ) - list_mean l) ^ 2)).sum / (l.length : ℚ)

/-- Signal extraction at a position, `_compute_signals_at_position` in
offline.py lines 133-170.  The curvature signal K is Shannon entropy of the
window (`_compute_byte_entropy`, a real-valued quantity involving `log2`);
it is abstracted here as the function parameter `entropyOf` applied to the
window bytes.  No claim constrains K, and every theorem below quantifies
over all `entropyOf`. -/
def compute_signals_at_position (entropyOf : List ℤ → ℚ) (data : List ℤ)
    (pos chunk_start signal_window : ℤ) : CutScoreSignals :=
  let wstart : ℤ := max 0 (pos - signal_window.fdiv 2)
  let wend : ℤ := min (wstart + signal_window) (data.length : ℤ)
  let K : ℚ := entropyOf (pySlice data wstart wend)
  let variance : ℚ := compute_byte_variance data wstart signal_window
  let S : ℚ := 8 / (1 + variance / 1000)
  let D : ℚ := 0
  let B : ℚ := if is_structural_boundary data pos then 1 else 0
  { K := K, S := S, D := D, B := B, L := pos - chunk_start }

/-- Signal extraction at a buffer position for the streaming chunker,
`_compute_signals_at_buffer_position` in streaming.py lines 137-171.  Same
shape as the offline extractor with the chunk length passed directly. -/
def compute_signals_at_buffer_position (entropyOf : List ℤ → ℚ) (buffer : List ℤ)
    (pos chunk_length signal_window : ℤ) : CutScoreSignals :=
  let wstart : ℤ := max 0 (pos - signal_window.fdiv 2)
  let wend : ℤ := min (wstart + signal_window) (buffer.length : ℤ)
  let K : ℚ := entropyOf (pySlice buffer wstart wend)
  let variance : ℚ := compute_byte_variance buffer wstart signal_window
  let S : ℚ := 8 / (1 + variance / 1000)
  let D : ℚ := 0
  let B : ℚ := if pos < (buffer.length : ℤ) ∧ pyGet buffer pos = 10 then 1 else 0
  { K := K, S := S, D := D, B := B, L := chunk_length }

/-- An emitted chunk (`Chunk` in offline.py lines 26-44). -/
structure Chunk where
  byte_start : ℤ
  byte_end : ℤ
  content : List ℤ
  cut_score : ℚ
  signals : CutScoreSignals
  normalized_signals : NormalizedSignals
deriving DecidableEq

/-- One entry of the offline score table `all_scores`: the tuple
`(pos, score, signals, norm)` built by the scan pass of `chunk_offline`
(offline.py lines 263-268). -/
structure ScoreEntry where
  pos : ℤ
  score : ℚ
  signals : CutScoreSignals
  norm : NormalizedSignals
deriving DecidableEq

/-- The inner loop of `_find_local_maxima` (offline.py lines 191-205) for
the entry `e` sitting at index `i` of the score list: `e` survives when no
entry at a different index within `min_distance` has a strictly greater
score, nor an equal score at a strictly later position (the source comment
reads "Tie-breaker: prefer later position"). -/
def is_local_maximum (scores : List ScoreEntry) (min_distance : ℤ) (i : ℕ)
    (e : ScoreEntry) : Prop :=
  ∀ je ∈ scores.enum, je.1 ≠ i →
    ¬ (|e.pos - je.2.pos| ≤ min_distance ∧
       (e.score < je.2.score ∨ (je.2.score = e.score ∧ e.pos < je.2.pos)))

instance (scores : List ScoreEntry) (d : ℤ) (i : ℕ) (e : ScoreEntry) :
    Decidable (is_local_maximum scores d i e) := by
  unfold is_local_maximum; infer_instance

/-- Local-maximum filter, `_find_local_maxima` in offline.py lines 173-210.
Iterates over the indexed score list and keeps the entries whose inner loop
found no suppressing neighbour. -/
def find_local_maxima (scores : List ScoreEntry) (min_distance : ℤ) : List ScoreEntry :=
  if scores = [] then []
  else
    (scores.enum.filter
      (fun ie => decide (is_local_maximum scores min_distance ie.1 ie.2))).map Prod.snd

/-- The tie-break rule the code actually implements, stated at the value
level: an entry qualifies exactly when every entry within `min_distance` has
a strictly smaller score or an equal score at a position no later than its
own (so among equal scores the latest position wins). -/
def qualifies_with_latest_tie (scores : List ScoreEntry) (d : ℤ) (e : ScoreEntry) : Prop :=
  ∀ o ∈ scores, |e.pos - o.pos| ≤ d →
    (o.score < e.score ∨ (o.score = e.score ∧ o.pos ≤ e.pos))

/-- Python `max(xs, key=lambda x: x[1])` over a nonempty list `head :: rest`
of score entries: folds left keeping the first entry of maximal score. -/
def python_max_by_score (head : ScoreEntry) (rest : List ScoreEntry) : ScoreEntry :=
  rest.foldl (fun acc x => if acc.score < x.score then x else acc) head

/-- Metadata search for the final chunk of `chunk_offline` (offline.py lines
280-292): scan the score table for the best score at a position strictly
inside the final chunk and at least `min_bytes` past its start, defaulting
to score 0 with zeroed signals. -/
def final_chunk_best (all_scores : List ScoreEntry) (current_start N min_bytes : ℤ) :
    ℚ × CutScoreSignals × NormalizedSignals :=
  all_scores.foldl
    (fun acc e =>
      if current_start < e.pos ∧ e.pos ≤ N ∧ current_start + min_bytes ≤ e.pos ∧
         acc.1 < e.score
      then (e.score, e.signals, e.norm) else acc)
    (0, ⟨0, 0, 0, 0, N - current_start⟩, ⟨0, 0, 0, 0, N - current_start⟩)

/-- The greedy boundary-selection loop of `chunk_offline` (offline.py lines
271-371), abstracted over the precomputed score table `all_scores` (the scan
pass of lines 250-268 computes it with normalizers and entropy, both
real-valued; the loop itself reads only positions, scores and the carried
signal payloads).  The fuel argument bounds the number of iterations of the
Python `while` loop; the boolean result is `false` when fuel ran out, in
which case the list holds the chunks appended up to that point. -/
def chunk_offline_loop (entropyOf : List ℤ → ℚ) (data : List ℤ)
    (config : ChunkingConfig) (signal_window : ℤ) (all_scores : List ScoreEntry) :
    ℕ → ℤ → List Chunk × Bool
  | 0, _ => ([], false)
  | fuel + 1, current_start =>
    let N : ℤ := data.length
    if N ≤ current_start then ([], true)
    else if N - current_start ≤ config.max_bytes then
      let best := final_chunk_best all_scores current_start N config.min_bytes
      ([{ byte_start := current_start, byte_end := N,
          content := pySlice data current_start N,
          cut_score := best.1, signals := best.2.1, normalized_signals := best.2.2 }],
       true)
    else
      let min_pos : ℤ := current_start + config.min_bytes
      let max_pos : ℤ := min (current_start + config.max_bytes) N
      let candidates := all_scores.filter
        (fun e => decide (min_pos ≤ e.pos ∧ e.pos ≤ max_pos))
      match candidates with
      | [] =>
        let end_pos := max_pos
        let signals := compute_signals_at_position entropyOf data end_pos current_start
          signal_window
        let c : Chunk := { byte_start := current_start, byte_end := end_pos,
                           content := pySlice data current_start end_pos,
                           cut_score := 0, signals := signals,
                           normalized_signals :=
                             ⟨0, 0, 0, signals.B, end_pos - current_start⟩ }
        let next := chunk_offline_loop entropyOf data config signal_window all_scores
          fuel (end_pos - config.overlap_bytes)
        (c :: next.1, next.2)
      | c0 :: crest =>
        let maxima := find_local_maxima (c0 :: crest) (config.min_bytes.fdiv 4)
        let best := match maxima with
          | [] => python_max_by_score c0 crest
          | m0 :: mrest => python_max_by_score m0 mrest
        let end_pos := best.pos
        let c : Chunk := { byte_start := current_start, byte_end := end_pos,
                           content := pySlice data current_start end_pos,
                           cut_score := best.score, signals := best.signals,
                           normalized_signals := best.norm }
        let next_start := if 0 < config.overlap_bytes ∧ end_pos < N
                          then end_pos - config.overlap_bytes else end_pos
        let next := chunk_offline_loop entropyOf data config signal_window all_scores
          fuel next_start
        (c :: next.1, next.2)

/-- Entry point `chunk_offline` (offline.py lines 213-371): empty input
yields no chunks; input of at most `min_bytes` yields a single chunk with
zeroed signals and cut-score 0; otherwise the greedy selection loop runs
over the score table. -/
def chunk_offline (entropyOf : List ℤ → ℚ) (data : List ℤ) (config : ChunkingConfig)
    (signal_window : ℤ) (all_scores : List ScoreEntry) (fuel : ℕ) : List Chunk × Bool :=
  if data.length = 0 then ([], true)
  else if (data.length : ℤ) ≤ config.min_bytes then
    ([{ byte_start := 0, byte_end := (data.length : ℤ), content := data, cut_score := 0,
        signals := ⟨0, 0, 0, 0, (data.length : ℤ)⟩,
        normalized_signals := ⟨0, 0, 0, 0, (data.length : ℤ)⟩ }], true)
  else chunk_offline_loop entropyOf data config signal_window all_scores fuel 0

/-- A streaming boundary candidate (`BoundaryCandidate` in streaming.py
lines 27-43). -/
structure Cand where
  position : ℤ
  global_position : ℤ
  score : ℚ
  signals : CutScoreSignals
  norm : NormalizedSignals
deriving DecidableEq

/-- Streaming chunker state (`StreamingChunkerState` in streaming.py lines
46-70).  The normalizer triple (`SignalNormalizers`, whose z-score update
involves `math.sqrt`) is abstracted as a value of the type parameter `σ`
threaded by the `Scorer` below. -/
structure SState (σ : Type) where
  buffer : List ℤ
  global_offset : ℤ
  chunk_start_offset : ℤ
  norm_state : σ
  best_boundary : Option Cand
  soft_trigger_count : ℤ
  candidates : List Cand
deriving DecidableEq

/-- Abstraction of the streaming scoring step: the composition of
`_compute_signals_at_buffer_position` with
`compute_cut_score(signals, config, state.normalizers)` (streaming.py lines
254-258 and the rescans in lines 332-363 and 444-450).  Arguments are the
normalizer state, the buffer, the position and the chunk length; the result
is the score, the raw and normalized signals, and the updated normalizer
state.  The real scorer involves `log2` and `sqrt`; every theorem below
quantifies over all scorers. -/
def Scorer (σ : Type) : Type :=
  σ → List ℤ → ℤ → ℤ → ℚ × CutScoreSignals × NormalizedSignals × σ

/-- Append to the candidate ring, a `deque(maxlen=256)` (streaming.py line
68-70): when the ring is full the oldest entry is dropped. -/
def ring_append (l : List Cand) (c : Cand) : List Cand :=
  if 256 ≤ l.length then l.tail ++ [c] else l ++ [c]

/-- Commit a chunk at a boundary, `_commit_at_boundary` in streaming.py
lines 368-423.  Returns `none` (leaving the state untouched) when the
boundary is `None`, the buffer is empty, or the clamped end position is not
positive; otherwise emits the chunk `buffer[:end_pos]`, deletes
`advance = max(1, end_pos - overlap)` bytes from the buffer, advances the
global offset, and clears the candidate ring, best boundary and soft-trigger
counter. -/
def commit_at_boundary {σ : Type} (config : ChunkingConfig) (s : SState σ)
    (boundary : Option Cand) : Option Chunk × SState σ :=
  match boundary with
  | none => (none, s)
  | some b =>
    if s.buffer.length = 0 then (none, s)
    else
      let end_pos : ℤ := min b.position (s.buffer.length : ℤ)
      if end_pos ≤ 0 then (none, s)
      else
        let chunk : Chunk := { byte_start := s.chunk_start_offset,
                               byte_end := s.chunk_start_offset + end_pos,
                               content := pySlice s.buffer 0 end_pos,
                               cut_score := b.score, signals := b.signals,
                               normalized_signals := b.norm }
        let overlap : ℤ := if 0 < config.overlap_bytes then config.overlap_bytes else 0
        let advance : ℤ := max 1 (end_pos - overlap)
        (some chunk,
         { buffer := s.buffer.drop advance.toNat,
           global_offset := s.global_offset + advance,
           chunk_start_offset := s.global_offset + advance,
           norm_state := s.norm_state,
           best_boundary := none, soft_trigger_count := 0, candidates := [] })

/-- Python `range(a, b)` as a list of integers. -/
def int_range (a b : ℤ) : List ℤ :=
  (List.range (b - a).toNat).map (fun i : ℕ => a + (i : ℤ))

/-- The rescan of `_commit_chunk_at_best_boundary` (streaming.py lines
331-347): walk the positions, score each one (threading the normalizer
state), and keep the first strictly-best candidate. -/
def scan_best {σ : Type} (scorer : Scorer σ) (buffer : List ℤ) (global_offset : ℤ) :
    List ℤ → σ → Option Cand → σ × Option Cand
  | [], st, best => (st, best)
  | p :: ps, st, best =>
    let r := scorer st buffer p p
    let best' := match best with
      | none => some ⟨p, global_offset + p, r.1, r.2.1, r.2.2.1⟩
      | some b => if b.score < r.1 then some ⟨p, global_offset + p, r.1, r.2.1, r.2.2.1⟩
                  else some b
    scan_best scorer buffer global_offset ps r.2.2.2 best'

/-- Hard-trigger commit, `_commit_chunk_at_best_boundary` in streaming.py
lines 296-365: prefer the best ring candidate in `[min_bytes, max_pos]`,
otherwise rescan that range, otherwise force a boundary at `max_pos`. -/
def commit_chunk_at_best_boundary {σ : Type} (scorer : Scorer σ)
    (config : ChunkingConfig) (s : SState σ) : Option Chunk × SState σ :=
  if s.buffer.length = 0 then (none, s)
  else
    let min_pos : ℤ := config.min_bytes
    let max_pos : ℤ := min config.max_bytes (s.buffer.length : ℤ)
    let ring_best := s.candidates.foldl
      (fun best c =>
        if min_pos ≤ c.position ∧ c.position ≤ max_pos then
          match best with
          | none => some c
          | some b => if b.score < c.score then some c else best
        else best) none
    match ring_best with
    | some b => commit_at_boundary config s (some b)
    | none =>
      let scan := scan_best scorer s.buffer s.global_offset
        (int_range min_pos (max_pos + 1)) s.norm_state none
      match scan.2 with
      | some b => commit_at_boundary config { s with norm_state := scan.1 } (some b)
      | none =>
        let r := scorer scan.1 s.buffer max_pos max_pos
        commit_at_boundary config { s with norm_state := r.2.2.2 }
          (some ⟨max_pos, s.global_offset + max_pos, r.1, r.2.1, r.2.2.1⟩)

/-- Final flush, `_commit_remaining` in streaming.py lines 426-471: emit all
remaining bytes as one chunk scored at the last position, then clear the
buffer and candidate state. -/
def commit_remaining {σ : Type} (scorer : Scorer σ) (s : SState σ) :
    Option Chunk × SState σ :=
  if s.buffer.length = 0 then (none, s)
  else
    let pos : ℤ := s.buffer.length
    let r := scorer s.norm_state s.buffer (pos - 1) pos
    (some { byte_start := s.chunk_start_offset,
            byte_end := s.chunk_start_offset + pos,
            content := s.buffer, cut_score := r.1,
            signals := r.2.1, normalized_signals := r.2.2.1 },
     { buffer := [], global_offset := s.global_offset + pos,
       chunk_start_offset := s.global_offset + pos, norm_state := r.2.2.2,
       best_boundary := none, soft_trigger_count := 0, candidates := [] })

/-- Result of one iteration of the `while True` body of `_process_buffer`:
`done` corresponds to a `break` or `return` (the loop exits), `loop`
corresponds to a `continue` (the loop re-enters with the new state).  Either
carries the chunk yielded by the iteration, if any. -/
inductive StepResult (σ : Type) where
  | done : Option Chunk → SState σ → StepResult σ
  | loop : Option Chunk → SState σ → StepResult σ
deriving DecidableEq

/-- One iteration of the decision loop, the body of `_process_buffer` in
streaming.py lines 226-293: exit on empty buffer; hard trigger at
`max_bytes`; flush-and-break when finalizing; otherwise record a candidate
at the last buffer position, update the best boundary, and run the
soft-trigger logic. -/
def process_step {σ : Type} (scorer : Scorer σ) (config : ChunkingConfig)
    (is_final : Bool) (s : SState σ) : StepResult σ :=
  if s.buffer.length = 0 then .done none s
  else
    let chunk_length : ℤ := s.buffer.length
    if config.max_bytes ≤ chunk_length then
      let r := commit_chunk_at_best_boundary scorer config s
      .loop r.1 r.2
    else if is_final then
      let r := commit_remaining scorer s
      .done r.1 r.2
    else if config.min_bytes ≤ chunk_length then
      let pos : ℤ := chunk_length - 1
      let r := scorer s.norm_state s.buffer pos chunk_length
      let cand : Cand := ⟨pos, s.global_offset + pos, r.1, r.2.1, r.2.2.1⟩
      let s1 : SState σ :=
        { s with norm_state := r.2.2.2,
                 candidates := ring_append s.candidates cand,
                 best_boundary := match s.best_boundary with
                   | none => some cand
                   | some b => if b.score < r.1 then some cand else some b }
      if config.soft_trigger_threshold ≤ r.1 then
        let s2 := { s1 with soft_trigger_count := s1.soft_trigger_count + 1 }
        if config.soft_trigger_sustain_steps ≤ s2.soft_trigger_count then
          let rc := commit_at_boundary config s2 s2.best_boundary
          .loop rc.1 rc.2
        else .done none s2
      else .done none { s1 with soft_trigger_count := 0 }
    else .done none s

/-- The decision loop `_process_buffer` (streaming.py lines 209-293) with
explicit fuel; `none` marks fuel exhaustion (the Python loop not having
exited within `fuel` iterations). -/
def process_buffer {σ : Type} (scorer : Scorer σ) (config : ChunkingConfig)
    (is_final : Bool) : ℕ → SState σ → Option (List Chunk × SState σ)
  | 0, _ => none
  | fuel + 1, s =>
    match process_step scorer config is_final s with
    | .done c s' => some (c.toList, s')
    | .loop c s' =>
      match process_buffer scorer config is_final fuel s' with
      | none => none
      | some (cs, s'') => some (c.toList ++ cs, s'')

/-- The stateful `StreamingChunker` class (streaming.py lines 474-561):
configuration, state and the finalized flag. -/
structure StreamingChunker (σ : Type) where
  config : ChunkingConfig
  state : SState σ
  finalized : Bool

/-- `StreamingChunker.feed` (streaming.py lines 507-525): raise
`RuntimeError("Cannot feed data after finalize()")` when already finalized,
else extend the buffer and run the decision loop.  The Python method is a
generator; this models its behavior when the returned iterator is consumed,
which is when the guard raises — in every case the error surfaces before any
chunk is produced.  The inner `some`/`none` distinguishes loop termination
within the given fuel. -/
def StreamingChunker.feed {σ : Type} (scorer : Scorer σ) (fuel : ℕ)
    (ch : StreamingChunker σ) (data : List ℤ) :
    Except String (Option (List Chunk × StreamingChunker σ)) :=
  if ch.finalized then .error "Cannot feed data after finalize()"
  else
    match process_buffer scorer ch.config false fuel
        { ch.state with buffer := ch.state.buffer ++ data } with
    | none => .ok none
    | some (cs, s') => .ok (some (cs, { ch with state := s' }))

/-- `StreamingChunker.finalize` (streaming.py lines 527-544): raise
`RuntimeError("finalize() already called")` when already finalized, else set
the finalized flag and flush via the decision loop. -/
def StreamingChunker.finalize {σ : Type} (scorer : Scorer σ) (fuel : ℕ)
    (ch : StreamingChunker σ) :
    Except String (Option (List Chunk × StreamingChunker σ)) :=
  if ch.finalized then .error "finalize() already called"
  else
    match process_buffer scorer ch.config true fuel ch.state with
    | none => .ok none
    | some (cs, s') => .ok (some (cs, { ch with state := s', finalized := true }))

/-- State invariant maintained by the streaming chunker: the tracked best
boundary, when present, sits at a local position of at least 1.  Candidates
are only ever recorded at position `len(buffer) - 1` with
`len(buffer) ≥ min_bytes`, so any reachable state of a run with
`min_bytes ≥ 2` satisfies it, as does any fresh state. -/
def best_boundary_pos_ge_one {σ : Type} (s : SState σ) : Prop :=
  ∀ b : Cand, s.best_boundary = some b → 1 ≤ b.position

/-- Per-chunk manifest entry (`ChunkMetadata` in manifests.py lines 23-45;
the signal dictionaries are modelled by the signal records themselves). -/
structure ChunkMetadata where
  index : ℤ
  byte_start : ℤ
  byte_end : ℤ
  byte_length : ℤ
  content_sha256 : String
  cut_score : ℚ
  signals : CutScoreSignals
  normalized_signals : NormalizedSignals
deriving DecidableEq

/-- Manifest of a chunking run (`ChunkManifest` in manifests.py lines
48-72). -/
structure ChunkManifest where
  doc_id : String
  doc_content_sha256 : String
  total_bytes : ℤ
  chunk_count : ℤ
  chunks : List ChunkMetadata
  config_hash : String
  config : ChunkingConfig
  created_at : String
  version : String
deriving DecidableEq

/-- Manifest generation, `generate_manifest` in manifests.py lines 168-232.
SHA-256 (`_compute_sha256`) and the configuration hash
(`_compute_config_hash`, SHA-256 of the key-sorted JSON) are abstracted as
the function parameters `sha` and `config_hash_fn`; the wall-clock read
`datetime.now(timezone.utc).isoformat()` of line 229 is made explicit as the
parameter `now`, which flows only into `created_at`. -/
def generate_manifest (sha : List ℤ → String)
    (config_hash_fn : ChunkingConfig → String) (chunks : List Chunk)
    (doc_id : String) (config : ChunkingConfig)
    (original_content : Option (List ℤ)) (now : String) : ChunkManifest :=
  let doc_hash := match original_content with
    | some d => sha d
    | none => sha (chunks.foldr (fun c acc => c.content ++ acc) [])
  let total_bytes : ℤ := match original_content with
    | some d => (d.length : ℤ)
    | none => (chunks.map (fun c => (c.content.length : ℤ))).sum
  { doc_id := doc_id,
    doc_content_sha256 := doc_hash,
    total_bytes := total_bytes,
    chunk_count := (chunks.length : ℤ),
    chunks := chunks.enum.map (fun ic =>
      { index := (ic.1 : ℤ), byte_start := ic.2.byte_start, byte_end := ic.2.byte_end,
        byte_length := (ic.2.content.length : ℤ), content_sha256 := sha ic.2.content,
        cut_score := ic.2.cut_score, signals := ic.2.signals,
        normalized_signals := ic.2.normalized_signals }),
    config_hash := config_hash_fn config,
    config := config,
    created_at := now,
    version := "1.0.0" }

/-- Hybrid policy parameters (`HybridConfig` in src/config.py lines 50-61). -/
structure HybridConfig where
  micro_chunk_bytes : ℤ := 768
  micro_overlap_bytes : ℤ := 96
  guard_band_bytes : ℤ := 256
deriving DecidableEq

/-- A chunk dictionary of the hybrid experiment driver
(scripts/run_hybrid_experiment.py): keys `chunk_index`,
`byte_offset_start`, `byte_offset_end`, `content`, `content_sha256`,
`cut_score`, `is_micro_chunk`, `parent_chunk_id`, `edit_window_id`. -/
structure HChunk where
  chunk_index : ℤ
  byte_offset_start : ℤ
  byte_offset_end : ℤ
  content : List ℤ
  content_sha256 : String
  cut_score : ℚ
  is_micro_chunk : Bool
  parent_chunk_id : Option String
  edit_window_id : Option String
deriving DecidableEq

/-- Edit window (`EditWindow` in run_hybrid_experiment.py lines 106-114),
restricted to the byte offsets consumed by `hybrid_chunk`. -/
structure EditWindow where
  edit_start : ℤ
  edit_end : ℤ
  guarded_start : ℤ
  guarded_end : ℤ
deriving DecidableEq

/-- The `while offset < len(window_data)` loop of `micro_chunk`
(run_hybrid_experiment.py lines 428-455), with fuel.  Each emitted
micro-chunk covers `[start + offset, start + chunk_end)` of the document and
is tagged with the parent chunk and edit-window ids; the loop also breaks
early once the window is fully covered. -/
def micro_chunk_loop (sha : List ℤ → String) (window_data : List ℤ) (start : ℤ)
    (chunk_size step : ℤ) (parent ewid : String) : ℕ → ℤ → ℤ → List HChunk
  | 0, _, _ => []
  | fuel + 1, offset, idx =>
    if (window_data.length : ℤ) ≤ offset then []
    else
      let chunk_end : ℤ := min (offset + chunk_size) (window_data.length : ℤ)
      let content := pySlice window_data offset chunk_end
      let c : HChunk := ⟨idx, start + offset, start + chunk_end, content, sha content,
                         0, true, some parent, some ewid⟩
      let offset' := offset + step
      if (window_data.length : ℤ) ≤ offset' ∧ chunk_end = (window_data.length : ℤ) then [c]
      else c :: micro_chunk_loop sha window_data start chunk_size step parent ewid
        fuel offset' (idx + 1)

/-- `micro_chunk` (run_hybrid_experiment.py lines 414-455): overlapping
fixed-size windows over `data[start:end]`.  The fuel `len + 1` suffices
whenever `step = micro_chunk_bytes - micro_overlap_bytes ≥ 1` (with
`step ≤ 0` the Python loop never terminates). -/
def micro_chunk (sha : List ℤ → String) (data : List ℤ) (start end_pos : ℤ)
    (config : HybridConfig) (parent ewid : String) : List HChunk :=
  let window_data := pySlice data start end_pos
  micro_chunk_loop sha window_data start config.micro_chunk_bytes
    (config.micro_chunk_bytes - config.micro_overlap_bytes) parent ewid
    (window_data.length + 1) 0 0

/-- One iteration of the `for chunk in prev_chunks` loop of `hybrid_chunk`
(run_hybrid_experiment.py lines 481-509): a prior chunk overlapping the
guarded window only contributes its hash as the micro-chunk parent (first
overlap wins); a disjoint chunk whose end still fits in the new buffer is
re-emitted at the same offsets with content re-read from the new buffer and
a freshly computed hash. -/
def hybrid_scan_step (sha : List ℤ → String) (data : List ℤ) (gs ge : ℤ)
    (acc : List HChunk × Option String) (chunk : HChunk) : List HChunk × Option String :=
  if ¬ (chunk.byte_offset_end ≤ gs ∨ ge ≤ chunk.byte_offset_start) then
    (acc.1, match acc.2 with | none => some chunk.content_sha256 | some p => some p)
  else if chunk.byte_offset_end ≤ (data.length : ℤ) then
    let new_content := pySlice data chunk.byte_offset_start chunk.byte_offset_end
    (acc.1 ++ [⟨(acc.1.length : ℤ), chunk.byte_offset_start, chunk.byte_offset_end,
               new_content, sha new_content, chunk.cut_score, false, none, none⟩],
     acc.2)
  else (acc.1, acc.2)

/-- Re-indexing pass: `chunk_index` is rewritten to the list position
(run_hybrid_experiment.py lines 522-524 and 530-532). -/
def reindex_from : ℤ → List HChunk → List HChunk
  | _, [] => []
  | i, c :: cs => { c with chunk_index := i } :: reindex_from (i + 1) cs

/-- `hybrid_chunk` (run_hybrid_experiment.py lines 458-534).  With no prior
partition or no edit window the driver falls back to full stability-driven
chunking (`stability_chunk`, which wraps `chunk_offline`), abstracted as the
parameter `stability_fn`.  The fresh edit-window id (`uuid.uuid4()` prefix,
line 476) is the explicit parameter `ewid`.  The final `sort` is Python's
stable sort by `byte_offset_start`. -/
def hybrid_chunk (sha : List ℤ → String) (stability_fn : List ℤ → List HChunk)
    (data : List ℤ) (prev_chunks : Option (List HChunk))
    (edit_window : Option EditWindow) (config : HybridConfig) (ewid : String) :
    List HChunk :=
  match prev_chunks, edit_window with
  | none, _ => stability_fn data
  | some _, none => stability_fn data
  | some prev, some w =>
    let gs := w.guarded_start
    let ge := w.guarded_end
    let scanned := prev.foldl (hybrid_scan_step sha data gs ge) ([], none)
    let result :=
      if ge ≤ (data.length : ℤ) then
        let parent := match scanned.2 with | none => "unknown" | some p => p
        let micros := micro_chunk sha data gs (min ge (data.length : ℤ)) config
          parent ewid
        scanned.1 ++ reindex_from (scanned.1.length : ℤ) micros
      else scanned.1
    reindex_from 0
      (result.mergeSort (fun a b => decide (a.byte_offset_start ≤ b.byte_offset_start)))

/-- Equality of all `HChunk` fields except `chunk_index` (the only field the
sort-and-reindex pass rewrites). -/
def same_chunk_data (a b : HChunk) : Prop :=
  a.byte_offset_start = b.byte_offset_start ∧ a.byte_offset_end = b.byte_offset_end ∧
  a.content = b.content ∧ a.content_sha256 = b.content_sha256 ∧
  a.cut_score = b.cut_score ∧ a.is_micro_chunk = b.is_micro_chunk ∧
  a.parent_chunk_id = b.parent_chunk_id ∧ a.edit_window_id = b.edit_window_id

/-- A placeholder entropy function for concrete runs in which the entropy
value is irrelevant (it is only consulted in branches the runs never reach,
or only for the K component, which no statement below inspects). -/
def entropy0 : List ℤ → ℚ := fun _ => 0

/-- All-zero raw signals, used as payload in concrete score tables whenever
no statement inspects the signal metadata. -/
def zero_signals : CutScoreSignals := ⟨0, 0, 0, 0, 0⟩

/-- All-zero normalized signals. -/
def zero_norm : NormalizedSignals := ⟨0, 0, 0, 0, 0⟩

/-- Concrete score entry at position 0 with score 1. -/
def entry_p0 : ScoreEntry := ⟨0, 1, zero_signals, zero_norm⟩

/-- Concrete score entry at position 1 with score 1 — equal score, later
position. -/
def entry_p1 : ScoreEntry := ⟨1, 1, zero_signals, zero_norm⟩

/-- Configuration for the offline overlap counterexample: valid in the
spec's sense (`min_bytes = 4 > 0`, `max_bytes = 16 > min_bytes`,
`0 < overlap_bytes = 8 < max_bytes`, no negative weight or threshold), with
only the structural-boundary term enabled and the length term disabled, so
that every cut-score is exactly `wB * B ∈ {0, 2}` — a value exact in
floating point. -/
def c2_config : ChunkingConfig :=
  { min_bytes := 4, max_bytes := 16, overlap_bytes := 8, L_target_bytes := 0,
    use_curvature := false, use_disharmony := false, use_stability_margin := false }

/-- 21 bytes: the letter `a` (97) everywhere except a newline (10) at
position 4. -/
def c2_data : List ℤ :=
  [97, 97, 97, 97, 10, 97, 97, 97, 97, 97, 97, 97, 97, 97, 97, 97, 97, 97, 97, 97, 97]

/-- The score table `chunk_offline` computes for `c2_data` under
`c2_config`: with only the B term enabled and `L_target_bytes = 0`, the scan
pass yields score `2` at the newline position and `0` elsewhere (B and L are
not normalized, so the normalizer state cannot affect these values); the
signal payloads carried in the tuples are never read by the selection loop
and are zeroed here. -/
def c2_scores : List ScoreEntry :=
  (List.range 21).map (fun p =>
    ⟨(p : ℤ), if p = 4 then 2 else 0, zero_signals, zero_norm⟩)

/-- Configuration for the offline overlap witness: valid, with
`0 < overlap_bytes = 2 < min_bytes = 4 < max_bytes = 6`, all score terms
disabled. -/
def w2_config : ChunkingConfig :=
  { min_bytes := 4, max_bytes := 6, overlap_bytes := 2, L_target_bytes := 0,
    use_curvature := false, use_disharmony := false, use_stability_margin := false,
    use_lil_boundaries := false }

/-- 15 identical bytes for the overlap witness run. -/
def w2_data : List ℤ := List.replicate 15 97

/-- The all-zero score table the scan pass produces for `w2_data` under
`w2_config` (every term of the cut-score is disabled). -/
def w2_scores : List ScoreEntry :=
  (List.range 15).map (fun p => ⟨(p : ℤ), 0, zero_signals, zero_norm⟩)

/-- An invalid configuration in the spec's sense:
`max_bytes = min_bytes = 4`. -/
def c3_config : ChunkingConfig := { min_bytes := 4, max_bytes := 4 }

/-- A constant stand-in for SHA-256 in runs whose statement does not depend
on the hash values. -/
def sha_const : List ℤ → String := fun _ => "h"

/-- A constant stand-in for the configuration-hash function. -/
def cfg_hash_const : ChunkingConfig → String := fun _ => "c"

/-- A concrete hash stand-in for the hybrid runs: a string of `x`s of the
input's length.  The only facts the statements below use are its concrete
values; in particular `sha_rep [1, 2] = "xx"` differs from the stored string
`"deadbeef"`, just as any real SHA-256 hex digest (64 characters) does. -/
def sha_rep : List ℤ → String := fun l => String.mk (List.replicate l.length 'x')

/-- Document for the hybrid counterexample: bytes 1..10. -/
def c7_data : List ℤ := [1, 2, 3, 4, 5, 6, 7, 8, 9, 10]

/-- Prior partition for the hybrid counterexample: a single chunk at
`[0, 2)` whose recorded hash `"deadbeef"` does not match the new buffer
content at those offsets. -/
def c7_prev : List HChunk :=
  [⟨0, 0, 2, [1, 2], "deadbeef", 0, false, none, none⟩]

/-- Edit window `[5, 6)` guarded to `[5, 8)` for the hybrid
counterexample. -/
def c7_window : EditWindow := ⟨5, 6, 5, 8⟩

/-- Prior partition whose recorded hash matches the re-read content under
`sha_rep` (used by the hybrid witness). -/
def c7_prev_ok : List HChunk :=
  [⟨0, 0, 2, [1, 2], "xx", 0, false, none, none⟩]

/-- Small micro-chunk parameters for the hybrid counterexample. -/
def c7_hconfig : HybridConfig :=
  { micro_chunk_bytes := 2, micro_overlap_bytes := 1, guard_band_bytes := 2 }

/-- The chunk list `hybrid_chunk` builds for the `c7` run just before the
final sort-and-reindex pass: the re-emitted prior chunk (hash recomputed
from the new buffer) followed by the three micro-chunks covering the guarded
window `[5, 8)`. -/
def c7_presort : List HChunk :=
  [⟨0, 0, 2, [1, 2], sha_rep [1, 2], 0, false, none, none⟩,
   ⟨1, 5, 7, [6, 7], sha_rep [6, 7], 0, true, some "unknown", some "w1"⟩,
   ⟨2, 6, 8, [7, 8], sha_rep [7, 8], 0, true, some "unknown", some "w1"⟩,
   ⟨3, 7, 8, [8], sha_rep [8], 0, true, some "unknown", some "w1"⟩]

/-- Configuration for the streaming no-progress counterexample: valid in the
spec's sense and satisfying the claim's `min_bytes ≥ 1`
(`min_bytes = 1 < max_bytes = 8`, `overlap_bytes = 0`), with only the
structural-boundary term enabled, soft-trigger threshold 1 and sustain 1. -/
def c10_config : ChunkingConfig :=
  { min_bytes := 1, max_bytes := 8, overlap_bytes := 0, L_target_bytes := 0,
    use_curvature := false, use_disharmony := false, use_stability_margin := false,
    soft_trigger_threshold := 1, soft_trigger_sustain_steps := 1 }

/-- The scorer realized by `c10_config` on any buffer: with only the B term
enabled and `L_target_bytes = 0`, the streaming cut-score at `pos` is
exactly `wB * B = 2` at a newline byte and `0` otherwise, independent of the
normalizer state (B is not normalized).  Signal payloads are zeroed; no
statement below inspects them. -/
def newline_scorer : Scorer Unit := fun st buf pos _ =>
  (if pyGet buf pos = 10 then 2 else 0, zero_signals, zero_norm, st)

/-- Streaming state holding the single newline byte, as after
`feed(b"\n")` on a fresh chunker. -/
def c10_state : SState Unit := ⟨[10], 0, 0, (), none, 0, []⟩

/-- The state after one decision-loop iteration on `c10_state` under
`c10_config`: the position-0 candidate was recorded and became the best
boundary, the soft trigger fired, and the commit at local position 0
returned `None` leaving everything else unchanged — in particular the
buffer. -/
def c10_state1 : SState Unit :=
  ⟨[10], 0, 0, (), some ⟨0, 0, 2, zero_signals, zero_norm⟩, 1,
   [⟨0, 0, 2, zero_signals, zero_norm⟩]⟩

/-- A scorer that returns constant score 0 (realized, e.g., by a buffer with
no newline under a B-only configuration). -/
def zero_scorer : Scorer Unit := fun st _ _ _ => (0, zero_signals, zero_norm, st)

/-- Configuration for the streaming termination witness:
`min_bytes = 2 < max_bytes = 3`. -/
def w10_config : ChunkingConfig :=
  { min_bytes := 2, max_bytes := 3, overlap_bytes := 0, L_target_bytes := 0,
    use_curvature := false, use_disharmony := false, use_stability_margin := false,
    use_lil_boundaries := false, soft_trigger_threshold := 1 }

/-- Streaming state with a three-byte buffer for the termination witness. -/
def w10_state : SState Unit := ⟨[97, 98, 99], 0, 0, (), none, 0, []⟩

/-- A fresh streaming chunker (default configuration, empty buffer). -/
def fresh_chunker : StreamingChunker Unit :=
  ⟨{}, ⟨[], 0, 0, (), none, 0, []⟩, false⟩

/-- The same chunker after finalization. -/
def finalized_chunker : StreamingChunker Unit :=
  ⟨{}, ⟨[], 0, 0, (), none, 0, []⟩, true⟩

/-- The window of bytes the signal extractor reads at position `pos`:
`data[wstart : min(wstart + w, len)]` with `wstart = max(0, pos - w//2)`. -/
def signal_window_bytes (data : List ℤ) (pos signal_window : ℤ) : List ℤ :=
  let wstart : ℤ := max 0 (pos - signal_window.fdiv 2)
  pySlice data wstart (min (wstart + signal_window) (data.length : ℤ))

/-- The chunk list of a concrete `chunk_offline` run on the one-byte
document `[97]` under the default configuration (short-circuit path). -/
def c4_chunks : List Chunk := (chunk_offline entropy0 [97] {} 64 [] 1).1

-- ===================================================================
-- Theorems.  Helper lemmas come first, then one theorem per claim with
-- its witness or counterexample.
-- ===================================================================

theorem pySlice_eq_nil (data : List ℤ) (a b : ℤ) (hba : b ≤ a) (hb0 : 0 ≤ b)
    (hbn : b ≤ (data.length : ℤ)) : pySlice data a b = [] := by
  unfold pySlice
  have ha0 : ¬ a < 0 := by omega
  have hb' : ¬ b < 0 := by omega
  simp only [if_neg ha0, if_neg hb']
  have h1 : min b (data.length : ℤ) = b := min_eq_left hbn
  rw [h1]
  apply List.drop_eq_nil_of_le
  have h2 : (data.take b.toNat).length ≤ b.toNat := by
    simp [List.length_take]
  have h3 : b.toNat ≤ (min a (data.length : ℤ)).toNat := by
    have : b ≤ min a (data.length : ℤ) := le_min hba hbn
    exact Int.toNat_le_toNat this
  omega

theorem compute_byte_variance_eq (data : List ℤ) (start window : ℤ)
    (hs : 0 ≤ start) (hw : 0 ≤ window) :
    compute_byte_variance data start window =
      (if (pySlice data start (min (start + window) (data.length : ℤ))).length < 2
       then 0
       else list_variance
         (pySlice data start (min (start + window) (data.length : ℤ)))) := by
  simp only [compute_byte_variance]
  by_cases h1 : min (start + window) (data.length : ℤ) ≤ start
  · have hnil : pySlice data start (min (start + window) (data.length : ℤ)) = [] := by
      apply pySlice_eq_nil data start _ h1
      · have h0 : (0:ℤ) ≤ (data.length : ℤ) := Int.natCast_nonneg _
        omega
      · exact min_le_right _ _
    rw [if_pos h1, hnil]
    simp
  · rw [if_neg h1]
    by_cases h2 : (pySlice data start (min (start + window) (data.length : ℤ))).length < 2
    · rw [if_pos h2, if_pos h2]
    · rw [if_neg h2, if_neg h2]
      simp only [list_variance, list_mean]

theorem signals_S_eq (entropyOf : List ℤ → ℚ) (data : List ℤ)
    (pos chunk_start signal_window : ℤ) (hw : 0 ≤ signal_window) :
    (compute_signals_at_position entropyOf data pos chunk_start signal_window).S =
      8 / (1 + (if (signal_window_bytes data pos signal_window).length < 2 then 0
                else list_variance (signal_window_bytes data pos signal_window)) / 1000) := by
  simp only [compute_signals_at_position, signal_window_bytes]
  rw [compute_byte_variance_eq data _ signal_window (le_max_left 0 _) hw]

theorem buffer_signals_S_eq (entropyOf : List ℤ → ℚ) (buffer : List ℤ)
    (pos chunk_length signal_window : ℤ) (hw : 0 ≤ signal_window) :
    (compute_signals_at_buffer_position entropyOf buffer pos chunk_length
        signal_window).S =
      8 / (1 + (if (signal_window_bytes buffer pos signal_window).length < 2 then 0
                else list_variance (signal_window_bytes buffer pos signal_window)) / 1000) := by
  simp only [compute_signals_at_buffer_position, signal_window_bytes]
  rw [compute_byte_variance_eq buffer _ signal_window (le_max_left 0 _) hw]

/-- C6 (corrected): both signal extractors return
`S = 8 / (1 + v / 1000)` with `v` the byte-value variance of the signal
window when the window holds at least two bytes, and `S = 8` — not `S = 0`
as the claim states — when the window holds fewer than two bytes (the
variance helper returns `v = 0` there, so `S = 8 / (1 + 0) = 8`). -/
theorem signal_extractor_stability_margin (entropyOf : List ℤ → ℚ)
    (data buffer : List ℤ) (pos chunk_start chunk_length signal_window : ℤ)
    (hw : 0 ≤ signal_window) :
    (2 ≤ (signal_window_bytes data pos signal_window).length →
      (compute_signals_at_position entropyOf data pos chunk_start signal_window).S =
        8 / (1 + list_variance (signal_window_bytes data pos signal_window) / 1000))
    ∧ ((signal_window_bytes data pos signal_window).length < 2 →
      (compute_signals_at_position entropyOf data pos chunk_start signal_window).S = 8)
    ∧ (2 ≤ (signal_window_bytes buffer pos signal_window).length →
      (compute_signals_at_buffer_position entropyOf buffer pos chunk_length
          signal_window).S =
        8 / (1 + list_variance (signal_window_bytes buffer pos signal_window) / 1000))
    ∧ ((signal_window_bytes buffer pos signal_window).length < 2 →
      (compute_signals_at_buffer_position entropyOf buffer pos chunk_length
          signal_window).S = 8) := by
  refine ⟨?_, ?_, ?_, ?_⟩
  · intro h
    rw [signals_S_eq entropyOf data pos chunk_start signal_window hw,
      if_neg (by omega)]
  · intro h
    rw [signals_S_eq entropyOf data pos chunk_start signal_window hw, if_pos h]
    norm_num
  · intro h
    rw [buffer_signals_S_eq entropyOf buffer pos chunk_length signal_window hw,
      if_neg (by omega)]
  · intro h
    rw [buffer_signals_S_eq entropyOf buffer pos chunk_length signal_window hw,
      if_pos h]
    norm_num

/-- Witness for C6 at concrete inputs: the window `[0, 4]` (two bytes, mean
2, variance 4) gives `S = 8 / (1 + 4/1000) = 2000/251`, and the empty
document gives a window of fewer than two bytes and `S = 8`. -/
theorem signal_extractor_stability_margin_witness :
    (0 : ℤ) ≤ 64 ∧
    (compute_signals_at_position entropy0 [0, 4] 0 0 64).S = 2000 / 251 ∧
    (compute_signals_at_position entropy0 [] 0 0 64).S = 8 := by
  refine ⟨by norm_num, ?_, ?_⟩
  · have h := (signal_extractor_stability_margin entropy0 [0, 4] [] 0 0 0 64
      (by norm_num)).1 (by decide)
    rw [h]
    have hwin : signal_window_bytes [0, 4] 0 64 = [0, 4] := by decide
    rw [hwin]
    have hv : list_variance [0, 4] = 4 := by
      simp [list_variance, list_mean]
      norm_num
    rw [hv]
    norm_num
  · exact (signal_extractor_stability_margin entropy0 [] [] 0 0 0 64
      (by norm_num)).2.1 (by decide)

/-- Counterexample for C6 as stated: on the one-byte document `[97]` the
signal window at position 0 holds a single byte, and the extractor returns
`S = 8`, not `S = 0` as the claim requires. -/
theorem stability_margin_small_window_cex :
    (signal_window_bytes [97] 0 64).length < 2 ∧
    (compute_signals_at_position entropy0 [97] 0 0 64).S = 8 ∧
    ¬ (compute_signals_at_position entropy0 [97] 0 0 64).S = 0 := by
  have h8 : (compute_signals_at_position entropy0 [97] 0 0 64).S = 8 := by
    rw [signals_S_eq entropy0 [97] 0 0 64 (by norm_num), if_pos (by decide)]
    norm_num
  refine ⟨by decide, h8, by rw [h8]; norm_num⟩

/-- C9 (confirmed): the cut-score is non-negative for every configuration
with non-negative weights and every signal input — with or without
normalizer state, since both paths of `compute_cut_score` feed a
`NormalizedSignals` value whose `B` component is the raw `B ∈ {0, 1}` into
the same sum, and this theorem quantifies over every `NormalizedSignals`
with `B ≥ 0`. -/
theorem compute_cut_score_nonneg (config : ChunkingConfig)
    (norm : NormalizedSignals) (hK : 0 ≤ config.wK) (hD : 0 ≤ config.wD)
    (hS : 0 ≤ config.wS) (hB : 0 ≤ config.wB) (hL : 0 ≤ config.wL)
    (hBval : 0 ≤ norm.B) : 0 ≤ compute_cut_score norm config := by
  unfold compute_cut_score
  have hr : ∀ x : ℚ, 0 ≤ relu x := fun x => le_max_left 0 x
  have t1 : (0:ℚ) ≤
      (if config.use_curvature then config.wK * relu (norm.K_norm - config.k0) else 0) := by
    split_ifs
    · exact mul_nonneg hK (hr _)
    · exact le_refl 0
  have t2 : (0:ℚ) ≤
      (if config.use_disharmony then config.wD * relu (norm.D_norm - config.d0) else 0) := by
    split_ifs
    · exact mul_nonneg hD (hr _)
    · exact le_refl 0
  have t3 : (0:ℚ) ≤
      (if config.use_stability_margin then config.wS * relu (config.s0 - norm.S_norm) else 0) := by
    split_ifs
    · exact mul_nonneg hS (hr _)
    · exact le_refl 0
  have t4 : (0:ℚ) ≤ (if config.use_lil_boundaries then config.wB * norm.B else 0) := by
    split_ifs
    · exact mul_nonneg hB hBval
    · exact le_refl 0
  have t5 : (0:ℚ) ≤
      (if 0 < config.L_target_bytes then
        config.wL * relu (((norm.L : ℚ) - (config.L_target_bytes : ℚ)) /
          (config.L_target_bytes : ℚ))
       else 0) := by
    split_ifs
    · exact mul_nonneg hL (hr _)
    · exact le_refl 0
  have := add_nonneg (add_nonneg (add_nonneg (add_nonneg t1 t2) t3) t4) t5
  exact this

/-- Witness for C9: the default configuration and a signal vector with a
newline boundary and a long chunk give a non-negative score. -/
theorem compute_cut_score_nonneg_witness :
    (0:ℚ) ≤ ({} : ChunkingConfig).wK ∧ (0:ℚ) ≤ ({} : ChunkingConfig).wB ∧
    0 ≤ compute_cut_score ⟨1, -2, 0, 1, 4000⟩ {} := by
  refine ⟨by norm_num, by norm_num, ?_⟩
  exact compute_cut_score_nonneg {} ⟨1, -2, 0, 1, 4000⟩ (by norm_num) (by norm_num)
    (by norm_num) (by norm_num) (by norm_num) (by norm_num)

theorem mem_scores_of_mem_find_local_maxima {scores : List ScoreEntry} {d : ℤ}
    {e : ScoreEntry} (h : e ∈ find_local_maxima scores d) : e ∈ scores := by
  unfold find_local_maxima at h
  by_cases hnil : scores = []
  · rw [if_pos hnil] at h
    exact absurd h (List.not_mem_nil e)
  · rw [if_neg hnil] at h
    rcases List.mem_map.mp h with ⟨ie, hmemf, hsnd⟩
    rcases List.mem_filter.mp hmemf with ⟨henum, _⟩
    have hget : scores[ie.1]? = some ie.2 := List.mem_enum_iff_getElem?.mp henum
    rcases List.getElem?_eq_some_iff.mp hget with ⟨hlt, hgete⟩
    rw [← hsnd, ← hgete]
    exact List.getElem_mem hlt

/-- C1 (corrected): in `_find_local_maxima`, a candidate qualifies as a
local maximum if and only if it belongs to the score list and every
candidate within `min_distance` has a strictly smaller score or an equal
score at a position no later than its own.  Among equal-scored candidates
within `min_distance` it is therefore the *latest* (largest) position that
qualifies — earlier equal-scored candidates are suppressed, the opposite of
the claimed earliest-wins tie-break. -/
theorem find_local_maxima_characterization (scores : List ScoreEntry)
    (min_distance : ℤ) (e : ScoreEntry) :
    e ∈ find_local_maxima scores min_distance ↔
      e ∈ scores ∧ qualifies_with_latest_tie scores min_distance e := by
  unfold find_local_maxima qualifies_with_latest_tie
  by_cases hnil : scores = []
  · subst hnil; simp
  · rw [if_neg hnil]
    constructor
    · intro h
      rcases List.mem_map.mp h with ⟨⟨i, e'⟩, hmemf, hsnd⟩
      have hsnd' : e' = e := hsnd
      subst hsnd'
      rcases List.mem_filter.mp hmemf with ⟨henum, hdec⟩
      have hq : is_local_maximum scores min_distance i e' := of_decide_eq_true hdec
      have hget : scores[i]? = some e' := List.mem_enum_iff_getElem?.mp henum
      rcases List.getElem?_eq_some_iff.mp hget with ⟨hlt, hgete⟩
      have hmem : e' ∈ scores := by rw [← hgete]; exact List.getElem_mem hlt
      refine ⟨hmem, ?_⟩
      intro o ho hdist
      rcases List.getElem_of_mem ho with ⟨j, hj, hgetj⟩
      by_cases hij : j = i
      · subst hij
        have heo : o = e' := hgetj.symm.trans hgete
        exact Or.inr ⟨by rw [heo], by rw [heo]⟩
      · have henumj : (j, o) ∈ scores.enum := by
          rw [List.mem_enum_iff_getElem?]
          exact List.getElem?_eq_some_iff.mpr ⟨hj, hgetj⟩
        have hno := hq (j, o) henumj hij
        have hnb : ¬ (e'.score < o.score ∨ (o.score = e'.score ∧ e'.pos < o.pos)) :=
          fun hbad => hno ⟨hdist, hbad⟩
        push_neg at hnb
        rcases le_iff_lt_or_eq.mp hnb.1 with hlt2 | heq2
        · exact Or.inl hlt2
        · exact Or.inr ⟨heq2, hnb.2 heq2⟩
    · rintro ⟨hmem, hqual⟩
      rcases List.getElem_of_mem hmem with ⟨i, hi, hget⟩
      apply List.mem_map.mpr
      refine ⟨(i, e), ?_, rfl⟩
      apply List.mem_filter.mpr
      refine ⟨?_, ?_⟩
      · rw [List.mem_enum_iff_getElem?]
        exact List.getElem?_eq_some_iff.mpr ⟨hi, hget⟩
      · apply decide_eq_true
        intro je hje hne
        rintro ⟨hdist, hbad⟩
        have hoin : je.2 ∈ scores := by
          have hj := List.mem_enum_iff_getElem?.mp hje
          rcases List.getElem?_eq_some_iff.mp hj with ⟨hlt, hg⟩
          rw [← hg]
          exact List.getElem_mem hlt
        have hq := hqual je.2 hoin hdist
        rcases hbad with hlt1 | ⟨heq1, hp1⟩
        · rcases hq with h | ⟨heq, _⟩
          · exact (lt_asymm h) hlt1
          · rw [heq] at hlt1
            exact lt_irrefl _ hlt1
        · rcases hq with h | ⟨heq, hle⟩
          · rw [heq1] at h
            exact lt_irrefl _ h
          · exact absurd hp1 (not_lt.mpr hle)

/-- Counterexample for C1 as stated: two candidates at positions 0 and 1
with equal score 1 and `min_distance = 1`.  The claim says the earliest
(position 0) qualifies and the later one is suppressed; the code suppresses
position 0 and keeps position 1. -/
theorem find_local_maxima_later_tie_cex :
    find_local_maxima [entry_p0, entry_p1] 1 = [entry_p1] ∧
    entry_p0 ∉ find_local_maxima [entry_p0, entry_p1] 1 := by
  constructor
  · decide
  · decide

/-- C4 (corrected): the manifest produced by `generate_manifest` — over the
chunk list of a `chunk_offline` run, itself a pure function of the input
bytes and configuration in this embedding — is a deterministic function of
the input, configuration and hash functions in every field except
`created_at`, which copies the wall-clock reading; two manifests over
byte-identical input and configuration are byte-identical if and only if
their wall-clock readings coincide. -/
theorem generate_manifest_determinism_mod_timestamp (sha : List ℤ → String)
    (chf : ChunkingConfig → String) (chunks : List Chunk) (doc_id : String)
    (config : ChunkingConfig) (orig : Option (List ℤ)) (t1 t2 : String) :
    (generate_manifest sha chf chunks doc_id config orig t1).doc_id
        = (generate_manifest sha chf chunks doc_id config orig t2).doc_id
    ∧ (generate_manifest sha chf chunks doc_id config orig t1).doc_content_sha256
        = (generate_manifest sha chf chunks doc_id config orig t2).doc_content_sha256
    ∧ (generate_manifest sha chf chunks doc_id config orig t1).total_bytes
        = (generate_manifest sha chf chunks doc_id config orig t2).total_bytes
    ∧ (generate_manifest sha chf chunks doc_id config orig t1).chunk_count
        = (generate_manifest sha chf chunks doc_id config orig t2).chunk_count
    ∧ (generate_manifest sha chf chunks doc_id config orig t1).chunks
        = (generate_manifest sha chf chunks doc_id config orig t2).chunks
    ∧ (generate_manifest sha chf chunks doc_id config orig t1).config_hash
        = (generate_manifest sha chf chunks doc_id config orig t2).config_hash
    ∧ (generate_manifest sha chf chunks doc_id config orig t1).config
        = (generate_manifest sha chf chunks doc_id config orig t2).config
    ∧ (generate_manifest sha chf chunks doc_id config orig t1).version
        = (generate_manifest sha chf chunks doc_id config orig t2).version
    ∧ (generate_manifest sha chf chunks doc_id config orig t1
        = generate_manifest sha chf chunks doc_id config orig t2 ↔ t1 = t2) := by
  refine ⟨rfl, rfl, rfl, rfl, rfl, rfl, rfl, rfl, ?_⟩
  constructor
  · intro h
    exact congrArg ChunkManifest.created_at h
  · intro h
    rw [h]

/-- Counterexample for C4 as stated: the same one-byte document chunked by
`chunk_offline` under the default configuration, with the same hash
functions, manifested at two different wall-clock instants, gives manifests
that differ (in the `created_at` field), so two runs do not produce
byte-identical manifests. -/
theorem generate_manifest_timestamp_cex :
    (generate_manifest sha_const cfg_hash_const c4_chunks "doc" {} (some [97])
        "2026-01-01T00:00:00+00:00").created_at
      ≠ (generate_manifest sha_const cfg_hash_const c4_chunks "doc" {} (some [97])
        "2026-01-01T00:00:01+00:00").created_at
    ∧ generate_manifest sha_const cfg_hash_const c4_chunks "doc" {} (some [97])
        "2026-01-01T00:00:00+00:00"
      ≠ generate_manifest sha_const cfg_hash_const c4_chunks "doc" {} (some [97])
        "2026-01-01T00:00:01+00:00" := by
  have hne : ("2026-01-01T00:00:00+00:00" : String) ≠ "2026-01-01T00:00:01+00:00" := by
    decide
  refine ⟨hne, ?_⟩
  intro h
  exact hne (congrArg ChunkManifest.created_at h)

theorem chunk_offline_short_eq (entropyOf : List ℤ → ℚ) (data : List ℤ)
    (config : ChunkingConfig) (sw : ℤ) (scores : List ScoreEntry) (fuel : ℕ)
    (h0 : 0 < data.length) (h1 : (data.length : ℤ) ≤ config.min_bytes) :
    chunk_offline entropyOf data config sw scores fuel =
      ([{ byte_start := 0, byte_end := (data.length : ℤ), content := data,
          cut_score := 0, signals := ⟨0, 0, 0, 0, (data.length : ℤ)⟩,
          normalized_signals := ⟨0, 0, 0, 0, (data.length : ℤ)⟩ }], true) := by
  unfold chunk_offline
  rw [if_neg (by omega), if_pos h1]

/-- C5 (corrected): for every nonempty input of length `N ≤ min_bytes`,
`chunk_offline` emits exactly one chunk spanning `[0, N)` with zeroed
signals and cut-score 0.  For `N = 0`, contrary to the claim's
"including N = 0", it emits no chunk at all (the `len(data) == 0` guard
returns the empty list). -/
theorem chunk_offline_short_input (entropyOf : List ℤ → ℚ) (data : List ℤ)
    (config : ChunkingConfig) (sw : ℤ) (scores : List ScoreEntry) (fuel : ℕ)
    (h0 : 0 < data.length) (h1 : (data.length : ℤ) ≤ config.min_bytes) :
    chunk_offline entropyOf data config sw scores fuel =
      ([{ byte_start := 0, byte_end := (data.length : ℤ), content := data,
          cut_score := 0, signals := ⟨0, 0, 0, 0, (data.length : ℤ)⟩,
          normalized_signals := ⟨0, 0, 0, 0, (data.length : ℤ)⟩ }], true) :=
  chunk_offline_short_eq entropyOf data config sw scores fuel h0 h1

/-- Witness for C5 at a concrete input: a one-byte document under the
default configuration yields the single chunk `[0, 1)`. -/
theorem chunk_offline_short_input_witness :
    0 < ([97] : List ℤ).length ∧ (([97] : List ℤ).length : ℤ) ≤ ({} : ChunkingConfig).min_bytes ∧
    chunk_offline entropy0 [97] {} 64 [] 1 =
      ([{ byte_start := 0, byte_end := 1, content := [97], cut_score := 0,
          signals := ⟨0, 0, 0, 0, 1⟩, normalized_signals := ⟨0, 0, 0, 0, 1⟩ }], true) := by
  refine ⟨by decide, by decide, ?_⟩
  exact chunk_offline_short_input entropy0 [97] {} 64 [] 1 (by decide) (by decide)

/-- Counterexample for C5 as stated: on the empty input, `chunk_offline`
emits zero chunks, not the single chunk spanning `[0, 0)` the claim
requires for `N = 0`. -/
theorem chunk_offline_empty_input_cex :
    chunk_offline entropy0 [] {} 64 [] 1 = ([], true) ∧
    (chunk_offline entropy0 [] {} 64 [] 1).1.length ≠ 1 := by
  constructor
  · rfl
  · decide

/-- C3 (corrected): no chunking entry point validates the configuration.
`chunk_offline` accepts every configuration satisfying the spec's
`ConfigInvalid` condition and still emits chunks with no error (shown here
on the short-circuit path, which any nonempty input of length at most
`min_bytes` reaches), and `StreamingChunker.feed` returns normally — its
only guard is the finalized flag — rather than reporting `ConfigInvalid`. -/
theorem config_validation_absent :
    (∀ (entropyOf : List ℤ → ℚ) (data : List ℤ) (config : ChunkingConfig) (sw : ℤ)
       (scores : List ScoreEntry) (fuel : ℕ),
       config_invalid config → 0 < data.length →
       (data.length : ℤ) ≤ config.min_bytes →
       chunk_offline entropyOf data config sw scores fuel =
         ([{ byte_start := 0, byte_end := (data.length : ℤ), content := data,
             cut_score := 0, signals := ⟨0, 0, 0, 0, (data.length : ℤ)⟩,
             normalized_signals := ⟨0, 0, 0, 0, (data.length : ℤ)⟩ }], true))
    ∧ (∀ (σ : Type) (scorer : Scorer σ) (fuel : ℕ) (ch : StreamingChunker σ)
         (d : List ℤ), ch.finalized = false →
         ∃ r, StreamingChunker.feed scorer fuel ch d = .ok r) := by
  constructor
  · intro entropyOf data config sw scores fuel _ h0 h1
    exact chunk_offline_short_eq entropyOf data config sw scores fuel h0 h1
  · intro σ scorer fuel ch d h
    unfold StreamingChunker.feed
    rw [if_neg (by rw [h]; exact Bool.false_ne_true)]
    rcases hpb : process_buffer scorer ch.config false fuel
        { ch.state with buffer := ch.state.buffer ++ d } with _ | ⟨cs, s'⟩
    · exact ⟨none, rfl⟩
    · exact ⟨some (cs, { ch with state := s' }), rfl⟩

/-- Witness for C3: the invalid configuration with
`max_bytes = min_bytes = 4` is accepted by `chunk_offline`, which emits a
chunk, and a fresh streaming chunker accepts `feed` without error. -/
theorem config_validation_absent_witness :
    config_invalid c3_config ∧
    chunk_offline entropy0 [97, 98, 99] c3_config 64 [] 1 =
      ([{ byte_start := 0, byte_end := 3, content := [97, 98, 99], cut_score := 0,
          signals := ⟨0, 0, 0, 0, 3⟩, normalized_signals := ⟨0, 0, 0, 0, 3⟩ }], true) ∧
    (∃ r, StreamingChunker.feed zero_scorer 1 fresh_chunker [97] = .ok r) := by
  refine ⟨Or.inr (Or.inl (by decide)), ?_, ?_⟩
  · exact (config_validation_absent).1 entropy0 [97, 98, 99] c3_config 64 [] 1
      (Or.inr (Or.inl (by decide))) (by decide) (by decide)
  · exact (config_validation_absent).2 Unit zero_scorer 1 fresh_chunker [97] rfl

/-- Counterexample for C3 as stated: under the invalid configuration
`c3_config` (`max_bytes ≤ min_bytes`), `chunk_offline` reports no error and
produces a chunk. -/
theorem config_invalid_accepted_cex :
    config_invalid c3_config ∧
    chunk_offline entropy0 [97, 98, 99] c3_config 64 [] 1 =
      ([{ byte_start := 0, byte_end := 3, content := [97, 98, 99], cut_score := 0,
          signals := ⟨0, 0, 0, 0, 3⟩, normalized_signals := ⟨0, 0, 0, 0, 3⟩ }], true) := by
  refine ⟨Or.inr (Or.inl (by decide)), ?_⟩
  rfl

/-- C8 (confirmed): once a `StreamingChunker` is finalized, `feed` and
`finalize` both fail with the usage error before any chunk is produced, and
a successful `finalize` marks the chunker finalized, so it stays poisoned —
every later `feed` or `finalize` errors by the first two parts.  (The Python
methods are generators: the guard raises when the returned iterator is
consumed, which is in all cases before any chunk is yielded; this embedding
models the consumed iterator.) -/
theorem streaming_usage_violation :
    (∀ (σ : Type) (scorer : Scorer σ) (fuel : ℕ) (ch : StreamingChunker σ)
       (d : List ℤ), ch.finalized = true →
       StreamingChunker.feed scorer fuel ch d =
         .error "Cannot feed data after finalize()")
    ∧ (∀ (σ : Type) (scorer : Scorer σ) (fuel : ℕ) (ch : StreamingChunker σ),
       ch.finalized = true →
       StreamingChunker.finalize scorer fuel ch = .error "finalize() already called")
    ∧ (∀ (σ : Type) (scorer : Scorer σ) (fuel : ℕ) (ch : StreamingChunker σ)
         (cs : List Chunk) (ch' : StreamingChunker σ), ch.finalized = false →
       StreamingChunker.finalize scorer fuel ch = .ok (some (cs, ch')) →
       ch'.finalized = true) := by
  refine ⟨?_, ?_, ?_⟩
  · intro σ scorer fuel ch d h
    unfold StreamingChunker.feed
    rw [if_pos h]
  · intro σ scorer fuel ch h
    unfold StreamingChunker.finalize
    rw [if_pos h]
  · intro σ scorer fuel ch cs ch' h hok
    unfold StreamingChunker.finalize at hok
    rw [if_neg (by rw [h]; exact Bool.false_ne_true)] at hok
    rcases hpb : process_buffer scorer ch.config true fuel ch.state with _ | ⟨cs', s'⟩
    · rw [hpb] at hok
      exact absurd (Except.ok.inj hok) (by intro hc; exact Option.noConfusion hc)
    · rw [hpb] at hok
      have h1 := Except.ok.inj hok
      have h2 := Option.some.inj h1
      have h3 : ch' = { ch with state := s', finalized := true } :=
        (congrArg Prod.snd h2).symm
      rw [h3]

/-- Witness for C8: a finalized chunker rejects both `feed` and `finalize`;
finalizing a fresh chunker yields a chunker marked finalized, which then
rejects both operations. -/
theorem streaming_usage_violation_witness :
    finalized_chunker.finalized = true ∧
    StreamingChunker.feed zero_scorer 1 finalized_chunker [97] =
      .error "Cannot feed data after finalize()" ∧
    StreamingChunker.finalize zero_scorer 1 finalized_chunker =
      .error "finalize() already called" ∧
    fresh_chunker.finalized = false ∧
    StreamingChunker.finalize zero_scorer 1 fresh_chunker =
      .ok (some ([], finalized_chunker)) ∧
    finalized_chunker.finalized = true := by
  refine ⟨rfl, ?_, ?_, rfl, ?_, ?_⟩
  · exact (streaming_usage_violation).1 Unit zero_scorer 1 finalized_chunker [97] rfl
  · exact (streaming_usage_violation).2.1 Unit zero_scorer 1 finalized_chunker rfl
  · rfl
  · exact (streaming_usage_violation).2.2 Unit zero_scorer 1 fresh_chunker []
      finalized_chunker rfl rfl

theorem foldl_max_mem (t : List ScoreEntry) (acc : ScoreEntry) :
    t.foldl (fun a x => if a.score < x.score then x else a) acc = acc ∨
    t.foldl (fun a x => if a.score < x.score then x else a) acc ∈ t := by
  induction t generalizing acc with
  | nil => exact Or.inl rfl
  | cons x xs ih =>
    simp only [List.foldl_cons]
    rcases ih (if acc.score < x.score then x else acc) with h | h
    · rw [h]
      split_ifs with hs
      · exact Or.inr (List.mem_cons_self x xs)
      · exact Or.inl rfl
    · exact Or.inr (List.mem_cons_of_mem x h)

theorem python_max_by_score_mem (head : ScoreEntry) (rest : List ScoreEntry) :
    python_max_by_score head rest ∈ head :: rest := by
  unfold python_max_by_score
  rcases foldl_max_mem rest head with h | h
  · rw [h]
    exact List.mem_cons_self head rest
  · exact List.mem_cons_of_mem head h

theorem candidate_bounds {scores : List ScoreEntry} {lo hi : ℤ} {e : ScoreEntry}
    (h : e ∈ scores.filter (fun e => decide (lo ≤ e.pos ∧ e.pos ≤ hi))) :
    lo ≤ e.pos ∧ e.pos ≤ hi := by
  have := (List.mem_filter.mp h).2
  exact of_decide_eq_true this

theorem chunk_offline_loop_succ_cases (entropyOf : List ℤ → ℚ) (data : List ℤ)
    (config : ChunkingConfig) (sw : ℤ) (scores : List ScoreEntry) (fuel : ℕ)
    (cs : ℤ) (out : List Chunk)
    (hov : 0 < config.overlap_bytes)
    (hmm : config.min_bytes ≤ config.max_bytes)
    (h : chunk_offline_loop entropyOf data config sw scores (fuel + 1) cs = (out, true)) :
    ((data.length : ℤ) ≤ cs ∧ out = []) ∨
    ((data.length : ℤ) - cs ≤ config.max_bytes ∧
      ∃ c, out = [c] ∧ c.byte_start = cs ∧ c.byte_end = (data.length : ℤ)) ∨
    (∃ c rest end_pos, out = c :: rest ∧ c.byte_start = cs ∧ c.byte_end = end_pos ∧
      cs + config.min_bytes ≤ end_pos ∧ end_pos < (data.length : ℤ) ∧
      chunk_offline_loop entropyOf data config sw scores fuel
        (end_pos - config.overlap_bytes) = (rest, true)) := by
  simp only [chunk_offline_loop] at h
  split_ifs at h with h1 h2
  · rw [Prod.mk.injEq] at h
    exact Or.inl ⟨h1, h.1.symm⟩
  · rw [Prod.mk.injEq] at h
    exact Or.inr (Or.inl ⟨h2, _, h.1.symm, rfl, rfl⟩)
  · rcases hcand : scores.filter
        (fun e => decide (cs + config.min_bytes ≤ e.pos ∧
          e.pos ≤ min (cs + config.max_bytes) (data.length : ℤ))) with _ | ⟨c0, crest⟩
    all_goals rw [hcand] at h
    all_goals dsimp only at h
    · -- forced branch
      have hmax_lt : cs + config.max_bytes < (data.length : ℤ) := by omega
      have hmaxpos : min (cs + config.max_bytes) (data.length : ℤ)
          = cs + config.max_bytes := min_eq_left (by omega)
      rw [Prod.mk.injEq] at h
      obtain ⟨hout, htrue⟩ := h
      refine Or.inr (Or.inr ⟨_, _, min (cs + config.max_bytes) (data.length : ℤ),
        hout.symm, rfl, rfl, by omega, by omega, ?_⟩)
      rw [← htrue]
    · -- candidate branch
      have hmax_lt : cs + config.max_bytes < (data.length : ℤ) := by omega
      set best := (match find_local_maxima (c0 :: crest) (config.min_bytes.fdiv 4) with
        | [] => python_max_by_score c0 crest
        | m0 :: mrest => python_max_by_score m0 mrest) with hbest
      have hbest_mem : best ∈ c0 :: crest := by
        rw [hbest]
        rcases hm : find_local_maxima (c0 :: crest) (config.min_bytes.fdiv 4)
            with _ | ⟨m0, mrest⟩
        · exact python_max_by_score_mem c0 crest
        · have hmem : python_max_by_score m0 mrest ∈ m0 :: mrest :=
            python_max_by_score_mem m0 mrest
          rw [← hm] at hmem
          exact mem_scores_of_mem_find_local_maxima hmem
      have hbounds : cs + config.min_bytes ≤ best.pos ∧
          best.pos ≤ min (cs + config.max_bytes) (data.length : ℤ) := by
        rw [← hcand] at hbest_mem
        exact candidate_bounds hbest_mem
      have hlt : best.pos < (data.length : ℤ) := by
        rcases hbounds with ⟨_, hb2⟩
        omega
      rw [if_pos ⟨hov, hlt⟩] at h
      rw [Prod.mk.injEq] at h
      obtain ⟨hout, htrue⟩ := h
      refine Or.inr (Or.inr ⟨_, _, best.pos, hout.symm, rfl, rfl, hbounds.1, hlt, ?_⟩)
      rw [← htrue]

theorem chunk_offline_loop_chain (entropyOf : List ℤ → ℚ) (data : List ℤ)
    (config : ChunkingConfig) (sw : ℤ) (scores : List ScoreEntry)
    (hov : 0 < config.overlap_bytes) (hovlt : config.overlap_bytes < config.min_bytes)
    (hmm : config.min_bytes ≤ config.max_bytes) :
    ∀ (fuel : ℕ) (cs : ℤ) (out : List Chunk),
      chunk_offline_loop entropyOf data config sw scores fuel cs = (out, true) →
      List.Chain' (fun a b => b.byte_start = a.byte_end - config.overlap_bytes ∧
        a.byte_start < b.byte_start) out ∧
      (∀ c rest, out = c :: rest → c.byte_start = cs) := by
  intro fuel
  induction fuel with
  | zero =>
    intro cs out h
    simp only [chunk_offline_loop] at h
    rw [Prod.mk.injEq] at h
    exact absurd h.2 (by simp)
  | succ fuel ih =>
    intro cs out h
    rcases chunk_offline_loop_succ_cases entropyOf data config sw scores fuel cs out
        hov hmm h with ⟨_, hout⟩ | ⟨_, c, hout, hcs, _⟩ | ⟨c, rest, end_pos, hout, hcs,
          hce, hmin, hltN, hrec⟩
    · subst hout
      exact ⟨List.chain'_nil, by intro c rest hc; exact absurd hc (by simp)⟩
    · subst hout
      refine ⟨List.chain'_singleton c, ?_⟩
      intro c' rest' hc
      rw [List.cons.injEq] at hc
      rw [← hc.1, hcs]
    · subst hout
      obtain ⟨hchain, hhead⟩ := ih (end_pos - config.overlap_bytes) rest hrec
      constructor
      · rw [List.chain'_cons']
        refine ⟨?_, hchain⟩
        intro b hb
        rcases rest with _ | ⟨c', rest'⟩
        · exact absurd hb (by simp)
        · have hb' : b = c' := by
            simp only [List.head?_cons, Option.mem_def, Option.some.injEq] at hb
            exact hb.symm
          subst hb'
          have hb_start : b.byte_start = end_pos - config.overlap_bytes :=
            hhead b rest' rfl
          constructor
          · rw [hb_start, hce]
          · rw [hb_start, hcs]
            omega
      · intro c' rest' hc
        rw [List.cons.injEq] at hc
        rw [← hc.1, hcs]

/-- C2 (corrected): the advance rule between consecutive chunks.
For `chunk_offline`, whenever `overlap_bytes > 0`, `byte_start` of chunk
`i+1` equals `byte_end` of chunk `i` minus `overlap_bytes` with **no
clamping of any kind** (offline.py lines 365-369); consequently `byte_start`
is strictly increasing only under the additional hypothesis
`overlap_bytes < min_bytes`, proved here.  The streaming chunker, by
contrast, clamps: `_commit_at_boundary` advances by
`max(1, end_pos - overlap_bytes)`, so the next chunk's start offset is
`max(byte_start_i + 1, byte_end_i - overlap_bytes)` and strictly exceeds
`byte_start_i`. -/
theorem overlap_advance_accounting :
    (∀ (entropyOf : List ℤ → ℚ) (data : List ℤ) (config : ChunkingConfig) (sw : ℤ)
       (scores : List ScoreEntry) (fuel : ℕ) (out : List Chunk),
       0 < config.overlap_bytes → config.overlap_bytes < config.min_bytes →
       config.min_bytes ≤ config.max_bytes →
       chunk_offline entropyOf data config sw scores fuel = (out, true) →
       List.Chain' (fun a b => b.byte_start = a.byte_end - config.overlap_bytes ∧
         a.byte_start < b.byte_start) out)
    ∧ (∀ (σ : Type) (config : ChunkingConfig) (s : SState σ) (b : Option Cand)
         (c : Chunk) (s' : SState σ),
       s.chunk_start_offset = s.global_offset → 0 < config.overlap_bytes →
       commit_at_boundary config s b = (some c, s') →
       s'.chunk_start_offset =
           max (c.byte_start + 1) (c.byte_end - config.overlap_bytes)
       ∧ c.byte_start < s'.chunk_start_offset) := by
  constructor
  · intro entropyOf data config sw scores fuel out hov hovlt hmm h
    unfold chunk_offline at h
    split_ifs at h with h1 h2
    · rw [Prod.mk.injEq] at h
      rw [← h.1]
      exact List.chain'_nil
    · rw [Prod.mk.injEq] at h
      rw [← h.1]
      exact List.chain'_singleton _
    · exact (chunk_offline_loop_chain entropyOf data config sw scores hov hovlt hmm
        fuel 0 out h).1
  · intro σ config s b c s' hcso hov h
    rcases b with _ | b
    · unfold commit_at_boundary at h
      dsimp only at h
      rw [Prod.mk.injEq] at h
      exact absurd h.1 (by simp)
    · unfold commit_at_boundary at h
      dsimp only at h
      by_cases h1 : s.buffer.length = 0
      · rw [if_pos h1] at h
        rw [Prod.mk.injEq] at h
        exact absurd h.1 (by simp)
      · rw [if_neg h1] at h
        by_cases h2 : min b.position (s.buffer.length : ℤ) ≤ 0
        · rw [if_pos h2] at h
          rw [Prod.mk.injEq] at h
          exact absurd h.1 (by simp)
        · rw [if_neg h2, if_pos hov] at h
          rw [Prod.mk.injEq] at h
          obtain ⟨hc, hs'⟩ := h
          have hc' : c = ⟨s.chunk_start_offset,
              s.chunk_start_offset + min b.position (s.buffer.length : ℤ),
              pySlice s.buffer 0 (min b.position (s.buffer.length : ℤ)),
              b.score, b.signals, b.norm⟩ := (Option.some.inj hc).symm
          rw [← hs', hc']
          simp only
          rw [hcso]
          set end_pos : ℤ := min b.position (s.buffer.length : ℤ) with hend
          constructor
          · rcases le_total 1 (end_pos - config.overlap_bytes) with hle | hle
            · rw [max_eq_right hle, max_eq_right (by omega)]
              omega
            · rw [max_eq_left hle, max_eq_left (by omega)]
          · have hadv : 1 ≤ max 1 (end_pos - config.overlap_bytes) := le_max_left _ _
            omega

/-- Witness for C2: a terminating `chunk_offline` run (all scores zero,
`min_bytes = 4`, `max_bytes = 6`, `overlap_bytes = 2`) whose four chunks
`[0,6), [4,10), [8,14), [12,15)` satisfy the unclamped advance relation and
strict monotonicity, and a concrete streaming commit whose next chunk start
is `max(byte_start + 1, byte_end - overlap)`. -/
theorem overlap_advance_accounting_witness :
    (0:ℤ) < w2_config.overlap_bytes ∧ w2_config.overlap_bytes < w2_config.min_bytes ∧
    w2_config.min_bytes ≤ w2_config.max_bytes ∧
    List.Chain' (fun a b => b.byte_start = a.byte_end - w2_config.overlap_bytes ∧
      a.byte_start < b.byte_start)
      (chunk_offline entropy0 w2_data w2_config 64 w2_scores 5).1 ∧
    ((⟨[1, 2, 3, 4, 5], 2, 2, (), none, 0, []⟩ : SState Unit).chunk_start_offset =
      (⟨[1, 2, 3, 4, 5], 2, 2, (), none, 0, []⟩ : SState Unit).global_offset) ∧
    (∀ c s', commit_at_boundary w2_config
        (⟨[1, 2, 3, 4, 5], 2, 2, (), none, 0, []⟩ : SState Unit)
        (some ⟨4, 6, 0, zero_signals, zero_norm⟩) = (some c, s') →
      s'.chunk_start_offset = max (c.byte_start + 1)
        (c.byte_end - w2_config.overlap_bytes) ∧ c.byte_start < s'.chunk_start_offset) := by
  have hrun : chunk_offline entropy0 w2_data w2_config 64 w2_scores 5 =
      ((chunk_offline entropy0 w2_data w2_config 64 w2_scores 5).1, true) := by decide
  refine ⟨by decide, by decide, by decide, ?_, rfl, ?_⟩
  · exact (overlap_advance_accounting).1 entropy0 w2_data w2_config 64 w2_scores 5 _
      (by decide) (by decide) (by decide) hrun
  · intro c s' h
    exact (overlap_advance_accounting).2 Unit w2_config _ _ c s' rfl (by decide) h

/-- Counterexample for C2 as stated: under the valid configuration
`c2_config` (`min_bytes = 4`, `max_bytes = 16`, `overlap_bytes = 8`) and the
21-byte document `c2_data` with a newline at position 4, `chunk_offline`
picks the boundary 4, then advances to `4 - 8 = -4`: the second appended
chunk has `byte_start = -4 < 0`, so `byte_start` moves backward instead of
being clamped (indeed `-4` is a fixpoint of the advance and the Python loop
never terminates on this input, which the exhausted-fuel flag `false`
reflects). -/
theorem chunk_offline_overlap_backward_cex :
    ((chunk_offline entropy0 c2_data c2_config 64 c2_scores 3).1.map
        Chunk.byte_start) = [0, -4, -4] ∧
    (chunk_offline entropy0 c2_data c2_config 64 c2_scores 3).2 = false ∧
    ¬ ((0:ℤ) < -4) ∧
    ¬ config_invalid c2_config := by
  refine ⟨by decide, by decide, by decide, ?_⟩
  unfold config_invalid
  push_neg
  refine ⟨by norm_num [c2_config], by norm_num [c2_config], by norm_num [c2_config],
    by norm_num [c2_config], by norm_num [c2_config], by norm_num [c2_config],
    by norm_num [c2_config], by norm_num [c2_config], by norm_num [c2_config],
    by norm_num [c2_config], by norm_num [c2_config], by norm_num [c2_config]⟩

theorem commit_at_boundary_progress {σ : Type} (config : ChunkingConfig)
    (s : SState σ) (b : Option Cand) (c : Chunk) (s' : SState σ)
    (h : commit_at_boundary config s b = (some c, s')) :
    s'.buffer.length < s.buffer.length ∧ s.global_offset < s'.global_offset ∧
    s'.best_boundary = none := by
  rcases b with _ | b
  · unfold commit_at_boundary at h
    dsimp only at h
    rw [Prod.mk.injEq] at h
    exact absurd h.1 (by simp)
  · unfold commit_at_boundary at h
    dsimp only at h
    by_cases h1 : s.buffer.length = 0
    · rw [if_pos h1] at h
      rw [Prod.mk.injEq] at h
      exact absurd h.1 (by simp)
    · rw [if_neg h1] at h
      by_cases h2 : min b.position (s.buffer.length : ℤ) ≤ 0
      · rw [if_pos h2] at h
        rw [Prod.mk.injEq] at h
        exact absurd h.1 (by simp)
      · rw [if_neg h2] at h
        rw [Prod.mk.injEq] at h
        obtain ⟨_, hs'⟩ := h
        rw [← hs']
        set ov : ℤ := if 0 < config.overlap_bytes then config.overlap_bytes else 0
          with hov
        set adv : ℤ := max 1 (min b.position (s.buffer.length : ℤ) - ov) with hadv
        have h1a : 1 ≤ adv := le_max_left _ _
        have hmin_le : min b.position (s.buffer.length : ℤ) ≤ (s.buffer.length : ℤ) :=
          min_le_right _ _
        have hov0 : 0 ≤ ov := by
          rw [hov]
          split_ifs with hq
          · omega
          · omega
        have hlen1 : 1 ≤ (s.buffer.length : ℤ) := by
          have := Nat.pos_of_ne_zero h1
          omega
        have hadv_le : adv ≤ (s.buffer.length : ℤ) := by
          rw [hadv]
          exact max_le hlen1 (by omega)
        refine ⟨?_, ?_, rfl⟩
        · simp only [List.length_drop]
          omega
        · simp only
          omega

theorem commit_at_boundary_some {σ : Type} (config : ChunkingConfig)
    (s : SState σ) (b : Cand) (hpos : 1 ≤ b.position)
    (hbuf : s.buffer.length ≠ 0) :
    ∃ c s', commit_at_boundary config s (some b) = (some c, s') := by
  unfold commit_at_boundary
  dsimp only
  rw [if_neg hbuf]
  have hlen : 1 ≤ (s.buffer.length : ℤ) := by
    have : 0 < s.buffer.length := Nat.pos_of_ne_zero hbuf
    omega
  rw [if_neg (by omega : ¬ min b.position (s.buffer.length : ℤ) ≤ 0)]
  exact ⟨_, _, rfl⟩

theorem ring_fold_bounds (lo hi : ℤ) :
    ∀ (l : List Cand) (acc : Option Cand),
      (∀ b, acc = some b → lo ≤ b.position ∧ b.position ≤ hi) →
      ∀ b, (l.foldl (fun best c =>
          if lo ≤ c.position ∧ c.position ≤ hi then
            match best with
            | none => some c
            | some b0 => if b0.score < c.score then some c else best
          else best) acc) = some b →
        lo ≤ b.position ∧ b.position ≤ hi := by
  intro l
  induction l with
  | nil => intro acc hacc b hb; exact hacc b hb
  | cons c cs ih =>
    intro acc hacc b hb
    simp only [List.foldl_cons] at hb
    apply ih _ _ b hb
    intro b' hb'
    split_ifs at hb' with hin
    · rcases acc with _ | b0
      · rw [Option.some.inj hb'] at hin
        exact hin
      · dsimp only at hb'
        split_ifs at hb' with hsc
        · rw [Option.some.inj hb'] at hin
          exact hin
        · exact hacc b' hb'
    · exact hacc b' hb'

theorem int_range_lower {a b x : ℤ} (h : x ∈ int_range a b) : a ≤ x := by
  unfold int_range at h
  rcases List.mem_map.mp h with ⟨i, _, hix⟩
  have hix' : a + (i : ℤ) = x := hix
  have hi0 : (0:ℤ) ≤ (i : ℤ) := Int.natCast_nonneg i
  omega

theorem scan_best_pos {σ : Type} (scorer : Scorer σ) (buffer : List ℤ)
    (go : ℤ) :
    ∀ (ps : List ℤ) (st : σ) (best : Option Cand),
      (∀ b, best = some b → 1 ≤ b.position) → (∀ p ∈ ps, 1 ≤ p) →
      ∀ b, (scan_best scorer buffer go ps st best).2 = some b → 1 ≤ b.position := by
  intro ps
  induction ps with
  | nil => intro st best hbest _ b hb; exact hbest b hb
  | cons p ps ih =>
    intro st best hbest hps b hb
    simp only [scan_best] at hb
    apply ih _ _ _ _ b hb
    · intro b' hb'
      rcases best with _ | b0
      · rw [← Option.some.inj hb']
        exact hps p (List.mem_cons_self p ps)
      · dsimp only at hb'
        split_ifs at hb' with hsc
        · rw [← Option.some.inj hb']
          exact hps p (List.mem_cons_self p ps)
        · rw [← Option.some.inj hb']
          exact hbest b0 rfl
    · intro q hq
      exact hps q (List.mem_cons_of_mem p hq)

theorem commit_chunk_at_best_boundary_some {σ : Type} (scorer : Scorer σ)
    (config : ChunkingConfig) (s : SState σ)
    (h2 : 2 ≤ config.min_bytes) (hmm : config.min_bytes < config.max_bytes)
    (hhard : config.max_bytes ≤ (s.buffer.length : ℤ)) :
    ∃ c s', commit_chunk_at_best_boundary scorer config s = (some c, s') ∧
      s'.buffer.length < s.buffer.length ∧ s'.best_boundary = none := by
  have hbuf : s.buffer.length ≠ 0 := by
    intro h0
    rw [h0] at hhard
    omega
  unfold commit_chunk_at_best_boundary
  dsimp only
  rw [if_neg hbuf]
  split
  · rename_i b heq
    have hpos : 1 ≤ b.position := by
      have hb := ring_fold_bounds config.min_bytes
        (min config.max_bytes (s.buffer.length : ℤ)) s.candidates none
        (by intro b' hb'; exact absurd hb' (by simp)) b heq
      omega
    obtain ⟨c, s', hc⟩ := commit_at_boundary_some config s b hpos hbuf
    exact ⟨c, s', hc, (commit_at_boundary_progress _ _ _ _ _ hc).1,
      (commit_at_boundary_progress _ _ _ _ _ hc).2.2⟩
  · split
    · rename_i b heq2
      have hps : ∀ p ∈ int_range config.min_bytes
          (min config.max_bytes (s.buffer.length : ℤ) + 1), 1 ≤ p := by
        intro p hp
        have hlo := int_range_lower hp
        omega
      have hpos : 1 ≤ b.position :=
        scan_best_pos scorer s.buffer s.global_offset _ s.norm_state none
          (by intro b' hb'; exact absurd hb' (by simp)) hps b heq2
      obtain ⟨c, s', hc⟩ := commit_at_boundary_some config
        { s with norm_state := (scan_best scorer s.buffer s.global_offset
            (int_range config.min_bytes
              (min config.max_bytes (s.buffer.length : ℤ) + 1)) s.norm_state none).1 }
        b hpos hbuf
      exact ⟨c, s', hc, (commit_at_boundary_progress _ _ _ _ _ hc).1,
        (commit_at_boundary_progress _ _ _ _ _ hc).2.2⟩
    · have hpos : (1:ℤ) ≤ min config.max_bytes (s.buffer.length : ℤ) := by
        have hmx : (2:ℤ) ≤ config.max_bytes := by omega
        omega
      obtain ⟨c, s', hc⟩ := commit_at_boundary_some config
        { s with norm_state := (scorer (scan_best scorer s.buffer s.global_offset
            (int_range config.min_bytes
              (min config.max_bytes (s.buffer.length : ℤ) + 1)) s.norm_state none).1
          s.buffer (min config.max_bytes (s.buffer.length : ℤ))
          (min config.max_bytes (s.buffer.length : ℤ))).2.2.2 }
        ⟨min config.max_bytes (s.buffer.length : ℤ),
         s.global_offset + min config.max_bytes (s.buffer.length : ℤ),
         (scorer (scan_best scorer s.buffer s.global_offset
            (int_range config.min_bytes
              (min config.max_bytes (s.buffer.length : ℤ) + 1)) s.norm_state none).1
          s.buffer (min config.max_bytes (s.buffer.length : ℤ))
          (min config.max_bytes (s.buffer.length : ℤ))).1,
         (scorer (scan_best scorer s.buffer s.global_offset
            (int_range config.min_bytes
              (min config.max_bytes (s.buffer.length : ℤ) + 1)) s.norm_state none).1
          s.buffer (min config.max_bytes (s.buffer.length : ℤ))
          (min config.max_bytes (s.buffer.length : ℤ))).2.1,
         (scorer (scan_best scorer s.buffer s.global_offset
            (int_range config.min_bytes
              (min config.max_bytes (s.buffer.length : ℤ) + 1)) s.norm_state none).1
          s.buffer (min config.max_bytes (s.buffer.length : ℤ))
          (min config.max_bytes (s.buffer.length : ℤ))).2.2.1⟩
        hpos hbuf
      exact ⟨c, s', hc, (commit_at_boundary_progress _ _ _ _ _ hc).1,
        (commit_at_boundary_progress _ _ _ _ _ hc).2.2⟩

theorem commit_at_boundary_snd {σ : Type} (config : ChunkingConfig) (t : SState σ)
    (b : Cand) (hpos : 1 ≤ b.position) (hbuf : t.buffer.length ≠ 0) :
    (commit_at_boundary config t (some b)).2.buffer.length < t.buffer.length ∧
    (∀ b', (commit_at_boundary config t (some b)).2.best_boundary = some b' →
      1 ≤ b'.position) := by
  obtain ⟨c, s', hc⟩ := commit_at_boundary_some config t b hpos hbuf
  rw [hc]
  refine ⟨(commit_at_boundary_progress _ _ _ _ _ hc).1, ?_⟩
  intro b' hb'
  rw [show s' = ((some c, s') : Option Chunk × SState σ).2 from rfl, ← hc] at hb'
  rw [hc] at hb'
  dsimp only at hb'
  rw [(commit_at_boundary_progress _ _ _ _ _ hc).2.2] at hb'
  cases hb'

theorem commit_best_snd {σ : Type} (scorer : Scorer σ) (config : ChunkingConfig)
    (t : SState σ) (h2 : 2 ≤ config.min_bytes) (hmm : config.min_bytes < config.max_bytes)
    (hhard : config.max_bytes ≤ (t.buffer.length : ℤ)) :
    (commit_chunk_at_best_boundary scorer config t).2.buffer.length < t.buffer.length ∧
    (∀ b', (commit_chunk_at_best_boundary scorer config t).2.best_boundary = some b' →
      1 ≤ b'.position) := by
  obtain ⟨c, s', hc, hlen, hbest⟩ :=
    commit_chunk_at_best_boundary_some scorer config t h2 hmm hhard
  rw [hc]
  refine ⟨hlen, ?_⟩
  intro b' hb'
  dsimp only at hb'
  rw [hbest] at hb'
  cases hb'

theorem process_step_cases {σ : Type} (scorer : Scorer σ) (config : ChunkingConfig)
    (is_final : Bool) (s : SState σ)
    (h2 : 2 ≤ config.min_bytes) (hmm : config.min_bytes < config.max_bytes)
    (hinv : ∀ b, s.best_boundary = some b → 1 ≤ b.position) :
    (∃ c s', process_step scorer config is_final s = .done c s') ∨
    (∃ c s', process_step scorer config is_final s = .loop c s' ∧
      s'.buffer.length < s.buffer.length ∧
      (∀ b, s'.best_boundary = some b → 1 ≤ b.position)) := by
  unfold process_step
  dsimp only
  by_cases hb0 : s.buffer.length = 0
  · rw [if_pos hb0]
    exact Or.inl ⟨_, _, rfl⟩
  · rw [if_neg hb0]
    by_cases hhard : config.max_bytes ≤ (s.buffer.length : ℤ)
    · rw [if_pos hhard]
      refine Or.inr ⟨_, _, rfl, ?_⟩
      exact commit_best_snd scorer config s h2 hmm hhard
    · rw [if_neg hhard]
      by_cases hf : is_final = true
      · rw [if_pos hf]
        exact Or.inl ⟨_, _, rfl⟩
      · rw [if_neg hf]
        by_cases hmin : config.min_bytes ≤ (s.buffer.length : ℤ)
        · rw [if_pos hmin]
          by_cases hth : config.soft_trigger_threshold ≤
              (scorer s.norm_state s.buffer ((s.buffer.length : ℤ) - 1)
                (s.buffer.length : ℤ)).1
          · rw [if_pos hth]
            by_cases hsus : config.soft_trigger_sustain_steps ≤ s.soft_trigger_count + 1
            · rw [if_pos hsus]
              have hlen2 : (2:ℤ) ≤ (s.buffer.length : ℤ) := by omega
              rcases hsb : s.best_boundary with _ | b0
              · dsimp only
                refine Or.inr ⟨_, _, rfl, ?_⟩
                refine commit_at_boundary_snd config _ _ ?_ ?_
                · dsimp only
                  omega
                · exact hb0
              · dsimp only
                by_cases hsc : b0.score <
                    (scorer s.norm_state s.buffer ((s.buffer.length : ℤ) - 1)
                      (s.buffer.length : ℤ)).1
                · rw [if_pos hsc]
                  refine Or.inr ⟨_, _, rfl, ?_⟩
                  refine commit_at_boundary_snd config _ _ ?_ ?_
                  · dsimp only
                    omega
                  · exact hb0
                · rw [if_neg hsc]
                  refine Or.inr ⟨_, _, rfl, ?_⟩
                  refine commit_at_boundary_snd config _ _ ?_ ?_
                  · exact hinv b0 hsb
                  · exact hb0
            · rw [if_neg hsus]
              exact Or.inl ⟨_, _, rfl⟩
          · rw [if_neg hth]
            exact Or.inl ⟨_, _, rfl⟩
        · rw [if_neg hmin]
          exact Or.inl ⟨_, _, rfl⟩

theorem process_buffer_terminates {σ : Type} (scorer : Scorer σ)
    (config : ChunkingConfig) (is_final : Bool)
    (h2 : 2 ≤ config.min_bytes) (hmm : config.min_bytes < config.max_bytes) :
    ∀ (fuel : ℕ) (s : SState σ),
      (∀ b, s.best_boundary = some b → 1 ≤ b.position) →
      s.buffer.length < fuel →
      (process_buffer scorer config is_final fuel s).isSome = true := by
  intro fuel
  induction fuel with
  | zero =>
    intro s _ hlen
    omega
  | succ fuel ih =>
    intro s hinv hlen
    rcases process_step_cases scorer config is_final s h2 hmm hinv with
      ⟨c, s', hstep⟩ | ⟨c, s', hstep, hlen', hinv'⟩
    · simp only [process_buffer, hstep]
      rfl
    · simp only [process_buffer, hstep]
      rcases hopt : process_buffer scorer config is_final fuel s' with _ | ⟨cs, s''⟩
      · have hrec := ih s' hinv' (by omega)
        rw [hopt] at hrec
        exact absurd hrec (by simp)
      · rfl

/-- C10 (corrected): every successful chunk commit removes at least one byte
from the buffer (`advance = max(1, end_pos - overlap_bytes) ≥ 1`) and
strictly increases `global_offset`; and the decision loop of
`_process_buffer` terminates within `len(buffer) + 1` iterations — hence
`feed` and `finalize` terminate — provided `min_bytes ≥ 2` (and
`min_bytes < max_bytes`, with the best-boundary invariant every reachable
state satisfies).  With `min_bytes = 1`, contrary to the claim, a commit at
local position 0 returns `None` without consuming a byte and the loop spins
forever (see the counterexample). -/
theorem streaming_progress_termination :
    (∀ (σ : Type) (config : ChunkingConfig) (s : SState σ) (b : Option Cand)
       (c : Chunk) (s' : SState σ),
       commit_at_boundary config s b = (some c, s') →
       s'.buffer.length < s.buffer.length ∧ s.global_offset < s'.global_offset)
    ∧ (∀ (σ : Type) (scorer : Scorer σ) (config : ChunkingConfig) (is_final : Bool)
         (fuel : ℕ) (s : SState σ),
       2 ≤ config.min_bytes → config.min_bytes < config.max_bytes →
       (∀ b, s.best_boundary = some b → 1 ≤ b.position) →
       s.buffer.length < fuel →
       (process_buffer scorer config is_final fuel s).isSome = true) := by
  constructor
  · intro σ config s b c s' h
    exact ⟨(commit_at_boundary_progress config s b c s' h).1,
           (commit_at_boundary_progress config s b c s' h).2.1⟩
  · intro σ scorer config is_final fuel s h2 hmm hinv hlen
    exact process_buffer_terminates scorer config is_final h2 hmm fuel s hinv hlen

/-- Witness for C10: a concrete commit that removes two bytes and advances
the global offset, and a concrete hard-trigger run of the decision loop
(`min_bytes = 2 < max_bytes = 3`, three-byte buffer) that terminates within
the fuel bound. -/
theorem streaming_progress_termination_witness :
    commit_at_boundary w10_config (⟨[1, 2, 3], 5, 5, (), none, 0, []⟩ : SState Unit)
        (some ⟨2, 7, 0, zero_signals, zero_norm⟩) =
      (some ⟨5, 7, [1, 2], 0, zero_signals, zero_norm⟩,
       ⟨[3], 7, 7, (), none, 0, []⟩) ∧
    (([3] : List ℤ).length < ([1, 2, 3] : List ℤ).length ∧ (5:ℤ) < 7) ∧
    (2:ℤ) ≤ w10_config.min_bytes ∧ w10_config.min_bytes < w10_config.max_bytes ∧
    w10_state.buffer.length < 4 ∧
    (process_buffer zero_scorer w10_config false 4 w10_state).isSome = true := by
  refine ⟨rfl, ?_, by decide, by decide, by decide, ?_⟩
  · exact (streaming_progress_termination).1 Unit w10_config
      ⟨[1, 2, 3], 5, 5, (), none, 0, []⟩
      (some ⟨2, 7, 0, zero_signals, zero_norm⟩)
      ⟨5, 7, [1, 2], 0, zero_signals, zero_norm⟩
      ⟨[3], 7, 7, (), none, 0, []⟩ rfl
  · refine (streaming_progress_termination).2 Unit zero_scorer w10_config false 4
      w10_state (by decide) (by decide) ?_ (by decide)
    intro b hb
    simp only [w10_state] at hb
    cases hb

/-- Counterexample for C10 as stated: under the valid configuration
`c10_config` with `min_bytes = 1` and the single-newline buffer, one
decision-loop iteration records the position-0 candidate, fires the soft
trigger, and the commit at local position 0 returns `None` — the iteration
ends in `continue` with the buffer unchanged, and the loop never terminates
(30 units of fuel are exhausted with no exit). -/
theorem streaming_no_progress_cex :
    process_step newline_scorer c10_config false c10_state = .loop none c10_state1 ∧
    c10_state1.buffer = c10_state.buffer ∧
    process_buffer newline_scorer c10_config false 30 c10_state = none ∧
    c10_config.min_bytes = 1 ∧
    ¬ config_invalid c10_config := by
  refine ⟨rfl, rfl, by decide, rfl, ?_⟩
  unfold config_invalid
  push_neg
  refine ⟨by norm_num [c10_config], by norm_num [c10_config], by norm_num [c10_config],
    by norm_num [c10_config], by norm_num [c10_config], by norm_num [c10_config],
    by norm_num [c10_config], by norm_num [c10_config], by norm_num [c10_config],
    by norm_num [c10_config], by norm_num [c10_config], by norm_num [c10_config]⟩

theorem pySlice_length_cases (data : List ℤ) (a b : ℤ) (ha : 0 ≤ a) (hb : 0 ≤ b) :
    (pySlice data a b).length = 0 ∨ ((pySlice data a b).length : ℤ) ≤ b - a := by
  simp only [pySlice]
  rw [if_neg (by omega), if_neg (by omega)]
  simp only [List.length_drop, List.length_take]
  have h1 : (0:ℤ) ≤ (data.length : ℤ) := Int.natCast_nonneg _
  omega

theorem micro_chunk_loop_mem (sha : List ℤ → String) (window_data : List ℤ)
    (start chunk_size step : ℤ) (parent ewid : String)
    (hsize : 0 < chunk_size) (hstep : 0 ≤ step) :
    ∀ (fuel : ℕ) (offset idx : ℤ) (c : HChunk), 0 ≤ offset →
      c ∈ micro_chunk_loop sha window_data start chunk_size step parent ewid
        fuel offset idx →
      start ≤ c.byte_offset_start ∧
      c.byte_offset_end ≤ start + (window_data.length : ℤ) ∧
      c.byte_offset_start < c.byte_offset_end := by
  intro fuel
  induction fuel with
  | zero =>
    intro offset idx c _ h
    simp [micro_chunk_loop] at h
  | succ fuel ih =>
    intro offset idx c hoff h
    simp only [micro_chunk_loop] at h
    split_ifs at h with h1 h2
    · exact absurd h (by simp)
    · rw [List.mem_singleton] at h
      subst h
      refine ⟨by dsimp only; omega, by dsimp only; omega, by dsimp only; omega⟩
    · rcases List.mem_cons.mp h with heq | hrec
      · subst heq
        refine ⟨by dsimp only; omega, by dsimp only; omega, by dsimp only; omega⟩
      · exact ih (offset + step) (idx + 1) c (by omega) hrec

theorem hybrid_scan_mem (sha : List ℤ → String) (data : List ℤ) (gs ge : ℤ) :
    ∀ (prev : List HChunk) (acc : List HChunk × Option String) (c : HChunk),
      c ∈ (prev.foldl (hybrid_scan_step sha data gs ge) acc).1 →
      c ∈ acc.1 ∨ ∃ p ∈ prev,
        c.byte_offset_start = p.byte_offset_start ∧
        c.byte_offset_end = p.byte_offset_end ∧
        c.content_sha256 = sha (pySlice data p.byte_offset_start p.byte_offset_end) ∧
        c.cut_score = p.cut_score ∧ c.is_micro_chunk = false ∧
        (p.byte_offset_end ≤ gs ∨ ge ≤ p.byte_offset_start) := by
  intro prev
  induction prev with
  | nil =>
    intro acc c h
    exact Or.inl h
  | cons p ps ih =>
    intro acc c h
    simp only [List.foldl_cons] at h
    rcases ih _ c h with hacc | ⟨q, hq, hfacts⟩
    · unfold hybrid_scan_step at hacc
      split_ifs at hacc with hov hfit
      · dsimp only at hacc
        rcases List.mem_append.mp hacc with h1 | h2
        · exact Or.inl h1
        · rw [List.mem_singleton] at h2
          subst h2
          exact Or.inr ⟨p, List.mem_cons_self p ps, rfl, rfl, rfl, rfl, rfl, hov⟩
      · exact Or.inl hacc
      · exact Or.inl hacc
    · exact Or.inr ⟨q, List.mem_cons_of_mem p hq, hfacts⟩

theorem reindex_from_mem :
    ∀ (l : List HChunk) (i : ℤ) (c : HChunk),
      c ∈ reindex_from i l → ∃ c₀ ∈ l, same_chunk_data c c₀ := by
  intro l
  induction l with
  | nil =>
    intro i c h
    simp [reindex_from] at h
  | cons x xs ih =>
    intro i c h
    simp only [reindex_from] at h
    rcases List.mem_cons.mp h with heq | hmem
    · subst heq
      exact ⟨x, List.mem_cons_self x xs, rfl, rfl, rfl, rfl, rfl, rfl, rfl, rfl⟩
    · rcases ih (i + 1) c hmem with ⟨c₀, hc₀, hs⟩
      exact ⟨c₀, List.mem_cons_of_mem x hc₀, hs⟩

/-- **C7.** Hybrid locality, corrected.  Every chunk the hybrid orchestrator
emits whose byte range is disjoint from the guarded window
`[guarded_start, guarded_end)` takes its `byte_offset_start`,
`byte_offset_end`, `cut_score` and non-micro tag from some chunk of the
prior partition — but its `content_sha256` is recomputed from the bytes the
NEW buffer holds at those offsets (run_hybrid_experiment.py lines 496-502),
not copied from the prior chunk, so it equals the prior chunk's hash only
when the content at those offsets is unchanged.  Hypotheses: positive
micro-chunk size, micro-overlap at most the micro-chunk size (otherwise the
Python micro-chunk loop diverges), and a guarded window with
`0 ≤ guarded_start ≤ guarded_end`. -/
theorem hybrid_chunk_locality (sha : List ℤ → String)
    (stability_fn : List ℤ → List HChunk) (data : List ℤ) (prev : List HChunk)
    (w : EditWindow) (config : HybridConfig) (ewid : String)
    (hsize : 0 < config.micro_chunk_bytes)
    (hov : config.micro_overlap_bytes ≤ config.micro_chunk_bytes)
    (hgs : 0 ≤ w.guarded_start) (hge : w.guarded_start ≤ w.guarded_end) :
    ∀ c ∈ hybrid_chunk sha stability_fn data (some prev) (some w) config ewid,
      c.byte_offset_end ≤ w.guarded_start ∨ w.guarded_end ≤ c.byte_offset_start →
      ∃ p ∈ prev,
        c.byte_offset_start = p.byte_offset_start ∧
        c.byte_offset_end = p.byte_offset_end ∧
        c.content_sha256 = sha (pySlice data p.byte_offset_start p.byte_offset_end) ∧
        c.cut_score = p.cut_score ∧ c.is_micro_chunk = false := by
  intro c hc hdisj
  simp only [hybrid_chunk] at hc
  obtain ⟨c₀, hc₀, hsame⟩ := reindex_from_mem _ _ _ hc
  rw [List.mem_mergeSort] at hc₀
  obtain ⟨e1, e2, e3, e4, e5, e6, e7, e8⟩ := hsame
  split at hc₀
  · rcases List.mem_append.mp hc₀ with h1 | h2
    · rcases hybrid_scan_mem sha data w.guarded_start w.guarded_end prev ([], none) c₀ h1
        with habs | ⟨p, hp, g1, g2, g3, g4, g5, g6⟩
      · exact absurd habs (List.not_mem_nil c₀)
      · exact ⟨p, hp, e1.trans g1, e2.trans g2, e4.trans g3, e5.trans g4, e6.trans g5⟩
    · obtain ⟨c₁, hc₁, f1, f2, f3, f4, f5, f6, f7, f8⟩ := reindex_from_mem _ _ _ h2
      simp only [micro_chunk] at hc₁
      obtain ⟨b1, b2, b3⟩ :=
        micro_chunk_loop_mem sha _ _ _ _ _ _ hsize (by omega) _ _ _ _ le_rfl hc₁
      have hw := pySlice_length_cases data w.guarded_start
        (min w.guarded_end (data.length : ℤ)) hgs
        (le_min (hgs.trans hge) (Int.natCast_nonneg _))
      rw [e1, f1, e2, f2] at hdisj
      rcases hw with h0 | h0 <;> rcases hdisj with hd | hd <;> omega
  · rcases hybrid_scan_mem sha data w.guarded_start w.guarded_end prev ([], none) c₀ hc₀
      with habs | ⟨p, hp, g1, g2, g3, g4, g5, g6⟩
    · exact absurd habs (List.not_mem_nil c₀)
    · exact ⟨p, hp, e1.trans g1, e2.trans g2, e4.trans g3, e5.trans g4, e6.trans g5⟩

/-- Witness for C7: a concrete run in which the prior partition's recorded
hash happens to match the re-read content, so the conclusion is the spec's
full preservation statement. -/
theorem hybrid_chunk_locality_witness :
    ((0 : ℤ) < c7_hconfig.micro_chunk_bytes ∧
     c7_hconfig.micro_overlap_bytes ≤ c7_hconfig.micro_chunk_bytes ∧
     (0 : ℤ) ≤ c7_window.guarded_start ∧
     c7_window.guarded_start ≤ c7_window.guarded_end) ∧
    ∀ c ∈ hybrid_chunk sha_rep (fun _ => []) c7_data (some c7_prev_ok)
        (some c7_window) c7_hconfig "w1",
      c.byte_offset_end ≤ c7_window.guarded_start ∨
        c7_window.guarded_end ≤ c.byte_offset_start →
      ∃ p ∈ c7_prev_ok,
        c.byte_offset_start = p.byte_offset_start ∧
        c.byte_offset_end = p.byte_offset_end ∧
        c.content_sha256 = sha_rep (pySlice c7_data p.byte_offset_start p.byte_offset_end) ∧
        c.cut_score = p.cut_score ∧ c.is_micro_chunk = false :=
  ⟨⟨by decide, by decide, by decide, by decide⟩,
   hybrid_chunk_locality sha_rep (fun _ => []) c7_data c7_prev_ok c7_window
     c7_hconfig "w1" (by decide) (by decide) (by decide) (by decide)⟩

/-- Counterexample to C7 as claimed: the document changed outside the edit
window, so the chunk re-emitted at the prior offsets `[0, 2)` (disjoint from
the guarded window `[5, 8)`) carries the freshly computed hash of the new
buffer content, which equals no `content_sha256` recorded in the prior
partition — the claim's "same content_sha256 as some chunk of P" fails. -/
theorem hybrid_chunk_hash_mismatch_cex :
    (⟨0, 0, 2, [1, 2], "xx", 0, false, none, none⟩ : HChunk) ∈
      hybrid_chunk sha_rep (fun _ => []) c7_data (some c7_prev) (some c7_window)
        c7_hconfig "w1" ∧
    (⟨0, 0, 2, [1, 2], "xx", 0, false, none, none⟩ : HChunk).byte_offset_end ≤
      c7_window.guarded_start ∧
    ∀ p ∈ c7_prev, p.content_sha256 ≠ "xx" := by
  refine ⟨?_, by decide, by decide⟩
  have h : hybrid_chunk sha_rep (fun _ => []) c7_data (some c7_prev) (some c7_window)
      c7_hconfig "w1" =
      reindex_from 0 (List.mergeSort c7_presort
        (fun a b => decide (a.byte_offset_start ≤ b.byte_offset_start))) := rfl
  have hmerge : List.mergeSort c7_presort
      (fun a b => decide (a.byte_offset_start ≤ b.byte_offset_start)) = c7_presort := by
    simp [c7_presort, List.mergeSort, sha_rep]
  rw [h, hmerge]
  decide
